import Mathlib

set_option maxRecDepth 4000

/-!
Verification development for the Opsera AI agent repository.

The development shallowly embeds the tool-dispatch core of `src/main.py`
(`AIAgent._determine_tool` and `AIAgent.process_request`), the calculator tool
(`src/tools/calculator.py`), and the file reader tool
(`src/tools/file_reader.py`).  Python strings are modelled as `List Char`,
Python exceptions as explicit `Except` values, and the JSON handling of the
standard library (`json.loads`) as an executable parser over the JSON grammar
accepted by CPython's scanner (including the `NaN`/`Infinity` constants).
-/

/-- Python strings are modelled as lists of characters. -/
abbrev PyStr := List Char

/-- Coerce a Lean string literal to the `PyStr` model. -/
def pys (s : String) : PyStr := s.data

/-- The characters removed by Python's `str.strip()` (ASCII whitespace). -/
def isPySpace (c : Char) : Bool :=
  c = ' ' || c = '\t' || c = '\n' || c = '\r' || c = '\x0b' || c = '\x0c'

/-- Model of `str.lstrip()`. -/
def lstrip (cs : PyStr) : PyStr := cs.dropWhile isPySpace

/-- Model of `str.rstrip()`. -/
def rstrip (cs : PyStr) : PyStr := (cs.reverse.dropWhile isPySpace).reverse

/-- Model of `str.strip()`. -/
def pstrip (cs : PyStr) : PyStr := rstrip (lstrip cs)

/-- Model of the Python slice `s[:-n]` for `n ≤ len s`. -/
def dropRightN (cs : PyStr) (n : Nat) : PyStr := cs.take (cs.length - n)

/-- Model of Python's substring test `needle in hay`. -/
def containsSeq : PyStr → PyStr → Bool
  | needle, [] => needle.isEmpty
  | needle, c :: t => needle.isPrefixOf (c :: t) || containsSeq needle t

/-- JSON values as produced by `json.loads`.  Numbers keep their source
lexeme (CPython turns the lexeme into an `int` or `float`; the lexeme
determines that value, so this is a faithful — finer — representation that
also covers the `NaN`/`Infinity`/`-Infinity` constants accepted by the
default scanner). -/
inductive Json where
  | null
  | bool (b : Bool)
  | num (lex : PyStr)
  | str (s : PyStr)
  | arr (elems : List Json)
  | obj (members : List (PyStr × Json))

/-- Association lookup on a parsed JSON object (Python `dict.get`). -/
def lookupKey (k : PyStr) : List (PyStr × Json) → Option Json
  | [] => none
  | (k2, v) :: rest => if k2 = k then some v else lookupKey k rest

/-- Insertion with Python `dict` semantics: a duplicate key keeps its first
position and overwrites its value. -/
def insertPy (acc : List (PyStr × Json)) (k : PyStr) (v : Json) :
    List (PyStr × Json) :=
  if acc.any (fun kv => kv.1 = k) then
    acc.map (fun kv => if kv.1 = k then (k, v) else kv)
  else acc ++ [(k, v)]

/-- Default value (supports typeclass search through pair types). -/
instance : Inhabited Json := ⟨Json.null⟩

/-- JSON inter-token whitespace accepted by CPython's scanner. -/
def isJsonWs (c : Char) : Bool := c = ' ' || c = '\t' || c = '\n' || c = '\r'

/-- Skip JSON whitespace. -/
def skipWs (cs : PyStr) : PyStr := cs.dropWhile isJsonWs

/-- Value of a hexadecimal digit. -/
def hexVal (c : Char) : Option Nat :=
  if '0' ≤ c ∧ c ≤ '9' then some (c.toNat - '0'.toNat)
  else if 'a' ≤ c ∧ c ≤ 'f' then some (c.toNat - 'a'.toNat + 10)
  else if 'A' ≤ c ∧ c ≤ 'F' then some (c.toNat - 'A'.toNat + 10)
  else none

/-- Decode the body of a JSON string after the opening quote, returning the
decoded characters and the input after the closing quote.  Mirrors CPython's
`py_scanstring` with `strict=True`: raw control characters below `0x20` are
rejected, the short escapes and `\uXXXX` are decoded, and a valid surrogate
pair yields the astral character.  (A lone surrogate, which CPython keeps as
an unpaired UTF-16 code unit, is mapped to U+FFFD since Lean characters are
scalar values; no claim depends on lone surrogates.) -/
def parseStrBody : Nat → PyStr → Option (PyStr × PyStr)
  | 0, _ => none
  | _ + 1, [] => none
  | fuel + 1, c :: rest =>
    if c = '"' then some ([], rest)
    else if c = '\\' then
      match rest with
      | [] => none
      | e :: rest2 =>
        let cont (ch : Char) (rem : PyStr) : Option (PyStr × PyStr) :=
          match parseStrBody fuel rem with
          | some (s, r) => some (ch :: s, r)
          | none => none
        if e = '"' then cont '"' rest2
        else if e = '\\' then cont '\\' rest2
        else if e = '/' then cont '/' rest2
        else if e = 'b' then cont '\x08' rest2
        else if e = 'f' then cont '\x0c' rest2
        else if e = 'n' then cont '\n' rest2
        else if e = 'r' then cont '\r' rest2
        else if e = 't' then cont '\t' rest2
        else if e = 'u' then
          match rest2 with
          | h1 :: h2 :: h3 :: h4 :: rest3 =>
            match hexVal h1, hexVal h2, hexVal h3, hexVal h4 with
            | some a, some b, some cc, some d =>
              let n := ((a * 16 + b) * 16 + cc) * 16 + d
              if 0xD800 ≤ n ∧ n ≤ 0xDBFF then
                match rest3 with
                | '\\' :: 'u' :: g1 :: g2 :: g3 :: g4 :: rest4 =>
                  match hexVal g1, hexVal g2, hexVal g3, hexVal g4 with
                  | some a2, some b2, some c2, some d2 =>
                    let m := ((a2 * 16 + b2) * 16 + c2) * 16 + d2
                    if 0xDC00 ≤ m ∧ m ≤ 0xDFFF then
                      let code := 0x10000 + (n - 0xD800) * 0x400 + (m - 0xDC00)
                      cont (Char.ofNat code) rest4
                    else cont '\uFFFD' rest3
                  | _, _, _, _ => cont '\uFFFD' rest3
                | _ => cont '\uFFFD' rest3
              else if 0xDC00 ≤ n ∧ n ≤ 0xDFFF then cont '\uFFFD' rest3
              else cont (Char.ofNat n) rest3
            | _, _, _, _ => none
          | _ => none
        else none
    else if c.toNat < 0x20 then none
    else
      match parseStrBody fuel rest with
      | some (s, r) => some (c :: s, r)
      | none => none

/-- Decode a whole JSON string starting after its opening quote. -/
def parseStrTop (cs : PyStr) : Option (PyStr × PyStr) :=
  parseStrBody (cs.length + 1) cs

/-- Longest prefix of decimal digits together with the rest. -/
def spanDigits (cs : PyStr) : PyStr × PyStr :=
  (cs.takeWhile Char.isDigit, cs.dropWhile Char.isDigit)

/-- The optional fraction and exponent parts of a JSON number, appended to an
already-parsed integer part `acc`.  Follows CPython's `NUMBER_RE`:
`(-?(?:0|[1-9]\d+|[1-9]))(\.\d+)?([eE][-+]?\d+)?` — a fraction or exponent is
only consumed when its digits are present. -/
def parseNumTail (acc : PyStr) (cs : PyStr) : PyStr × PyStr :=
  let fr : PyStr × PyStr :=
    match cs with
    | '.' :: r =>
      match spanDigits r with
      | ([], _) => (acc, cs)
      | (ds, r2) => (acc ++ '.' :: ds, r2)
    | _ => (acc, cs)
  let acc1 := fr.1
  let cs1 := fr.2
  match cs1 with
  | e :: r =>
    if e = 'e' ∨ e = 'E' then
      let sg : PyStr × PyStr :=
        match r with
        | c2 :: rr => if c2 = '+' ∨ c2 = '-' then ([c2], rr) else ([], r)
        | [] => ([], r)
      match spanDigits sg.2 with
      | ([], _) => (acc1, cs1)
      | (ds, r3) => (acc1 ++ e :: (sg.1 ++ ds), r3)
    else (acc1, cs1)
  | [] => (acc1, [])

/-- Parse a JSON number lexeme (without the `NaN`/`Infinity` constants),
returning the lexeme and the rest of the input. -/
def parseNum (cs : PyStr) : Option (PyStr × PyStr) :=
  let sg : PyStr × PyStr :=
    match cs with
    | '-' :: r => (['-'], r)
    | _ => ([], cs)
  match sg.2 with
  | '0' :: r => some (parseNumTail (sg.1 ++ ['0']) r)
  | c :: r =>
    if c.isDigit then
      let ds := spanDigits r
      some (parseNumTail (sg.1 ++ c :: ds.1) ds.2)
    else none
  | [] => none

mutual

/-- Parse one JSON value, mirroring CPython's scanner dispatch.  `fuel`
strictly decreases on every (possibly mutual) recursive call; callers supply
enough fuel for the input length. -/
def parseVal : Nat → PyStr → Option (Json × PyStr)
  | 0, _ => none
  | fuel + 1, cs =>
    match skipWs cs with
    | [] => none
    | c :: r =>
      if c = '{' then parseObjBody fuel r
      else if c = '[' then parseArrBody fuel r
      else if c = '"' then
        match parseStrTop r with
        | some (s, rest) => some (Json.str s, rest)
        | none => none
      else if c = 't' then
        if (pys "rue").isPrefixOf r then some (Json.bool true, r.drop 3) else none
      else if c = 'f' then
        if (pys "alse").isPrefixOf r then some (Json.bool false, r.drop 4) else none
      else if c = 'n' then
        if (pys "ull").isPrefixOf r then some (Json.null, r.drop 3) else none
      else if c = 'N' then
        if (pys "aN").isPrefixOf r then some (Json.num (pys "NaN"), r.drop 2) else none
      else if c = 'I' then
        if (pys "nfinity").isPrefixOf r then
          some (Json.num (pys "Infinity"), r.drop 7) else none
      else if c = '-' ∧ r.headI = 'I' then
        if (pys "Infinity").isPrefixOf r then
          some (Json.num (pys "-Infinity"), r.drop 8) else none
      else
        match parseNum (c :: r) with
        | some (lex, rest) => some (Json.num lex, rest)
        | none => none

/-- Parse the inside of a JSON object after the `{`. -/
def parseObjBody : Nat → PyStr → Option (Json × PyStr)
  | 0, _ => none
  | fuel + 1, cs =>
    match skipWs cs with
    | '}' :: r => some (Json.obj [], r)
    | other => parseMembers fuel [] other

/-- Parse the members of a JSON object (at least one), accumulating with
Python `dict` semantics. -/
def parseMembers : Nat → List (PyStr × Json) → PyStr → Option (Json × PyStr)
  | 0, _, _ => none
  | fuel + 1, acc, cs =>
    match skipWs cs with
    | '"' :: r =>
      match parseStrTop r with
      | some (k, r2) =>
        match skipWs r2 with
        | ':' :: r3 =>
          match parseVal fuel r3 with
          | some (v, r4) =>
            let acc2 := insertPy acc k v
            match skipWs r4 with
            | ',' :: r5 => parseMembers fuel acc2 r5
            | '}' :: r5 => some (Json.obj acc2, r5)
            | _ => none
          | none => none
        | _ => none
      | none => none
    | _ => none

/-- Parse the inside of a JSON array after the `[`. -/
def parseArrBody : Nat → PyStr → Option (Json × PyStr)
  | 0, _ => none
  | fuel + 1, cs =>
    match skipWs cs with
    | ']' :: r => some (Json.arr [], r)
    | other => parseElems fuel [] other

/-- Parse the elements of a JSON array (at least one). -/
def parseElems : Nat → List Json → PyStr → Option (Json × PyStr)
  | 0, _, _ => none
  | fuel + 1, acc, cs =>
    match parseVal fuel cs with
    | some (v, r) =>
      match skipWs r with
      | ',' :: r2 => parseElems fuel (acc ++ [v]) r2
      | ']' :: r2 => some (Json.arr (acc ++ [v]), r2)
      | _ => none
    | none => none

end

/-- Model of `json.loads`: parse one value, then require only whitespace to
remain (otherwise CPython raises "Extra data", i.e. a `JSONDecodeError`). -/
def jsonLoads (cs : PyStr) : Option Json :=
  match parseVal (4 * cs.length + 8) cs with
  | some (v, rest) => if skipWs rest = [] then some v else none
  | none => none

/-- Find the first occurrence of a character, returning the parts before and
after it. -/
def splitAtFirst (c : Char) : PyStr → Option (PyStr × PyStr)
  | [] => none
  | x :: rest =>
    if x = c then some ([], rest)
    else
      match splitAtFirst c rest with
      | some (a, b) => some (x :: a, b)
      | none => none

/-- Model of `re.search(r"\{.*?\}", raw, re.DOTALL)` from
`AIAgent._determine_tool`: the leftmost match of a non-greedy brace span is
the substring from the first `{` to the first `}` after it (DOTALL lets `.`
cross newlines; non-greedy takes the shortest, the regex engine scans for the
leftmost start). -/
def braceSpan (cs : PyStr) : Option PyStr :=
  match splitAtFirst '{' cs with
  | none => none
  | some (_, tail) =>
    match splitAtFirst '}' tail with
    | none => none
    | some (mid, _) => some ('{' :: (mid ++ ['}']))

/-- The cleaning `_determine_tool` performs on the raw LLM reply before the
direct `json.loads` attempt: strip, drop a leading ```` ```json ```` or
```` ``` ```` fence (with re-strip), drop a trailing ```` ``` ```` fence
(with re-strip). -/
def cleanLLM (raw : PyStr) : PyStr :=
  let c0 := pstrip raw
  let c1 :=
    if (pys "```json").isPrefixOf c0 then pstrip (c0.drop 7)
    else if (pys "```").isPrefixOf c0 then pstrip (c0.drop 3)
    else c0
  if (pys "```").isSuffixOf c1 then pstrip (dropRightN c1 3) else c1

/-- Python exceptions, abstracted to the classes the dispatcher
distinguishes, each carrying its `str()` rendering. -/
inductive PyExc where
  | typeError (msg : PyStr)
  | attributeError (msg : PyStr)
  | other (msg : PyStr)

/-- `str()` of an exception. -/
def excStr : PyExc → PyStr
  | .typeError m => m
  | .attributeError m => m
  | .other m => m

/-- A single-quote character (written via its code so the source scan stays
clean). -/
def quoteCh : Char := Char.ofNat 39

/-- One character of Python `repr` output for a string (simplified to the
escapes that matter: backslash, quote, newline, carriage return, tab). -/
def reprEsc (c : Char) : PyStr :=
  if c = '\\' then pys "\\\\"
  else if c = quoteCh then ['\\', quoteCh]
  else if c = '\n' then pys "\\n"
  else if c = '\r' then pys "\\r"
  else if c = '\t' then pys "\\t"
  else [c]

/-- Python `repr` of a string (always single-quoted; Python switches to
double quotes only when the string itself contains a single quote, a case no
claim exercises). -/
def pyReprStr (s : PyStr) : PyStr := quoteCh :: ((s.map reprEsc).flatten ++ [quoteCh])

/-- Join pieces with a separator (Python `", ".join`). -/
def joinSep (sep : PyStr) : List PyStr → PyStr
  | [] => []
  | [x] => x
  | x :: y :: rest => x ++ sep ++ joinSep sep (y :: rest)

mutual

/-- Python `repr` of a value decoded from JSON (`None`/`True`/`False`,
number lexemes, quoted strings, list and dict displays). -/
def pyRepr : Json → PyStr
  | .null => pys "None"
  | .bool true => pys "True"
  | .bool false => pys "False"
  | .num lex => lex
  | .str s => pyReprStr s
  | .arr xs => '[' :: (joinSep (pys ", ") (pyReprList xs) ++ [']'])
  | .obj kvs => '{' :: (joinSep (pys ", ") (pyReprMembers kvs) ++ ['}'])

/-- `repr` of each element of a list. -/
def pyReprList : List Json → List PyStr
  | [] => []
  | x :: xs => pyRepr x :: pyReprList xs

/-- `repr` of each `key: value` entry of a dict. -/
def pyReprMembers : List (PyStr × Json) → List PyStr
  | [] => []
  | (k, v) :: rest => (pyReprStr k ++ pys ": " ++ pyRepr v) :: pyReprMembers rest

end

/-- Python `str()` of a value decoded from JSON (as used by f-strings):
strings render verbatim, everything else as its `repr`. -/
def pyStr : Json → PyStr
  | .str s => s
  | v => pyRepr v

/-- `str()` of an optional value (`None` when the key was absent). -/
def pyStrOpt : Option Json → PyStr
  | none => pys "None"
  | some v => pyStr v

/-- Whether the number lexeme denotes numeric zero (for Python truthiness;
`NaN` and `Infinity` are truthy). -/
def numIsZero (lex : PyStr) : Bool :=
  let body := match lex with | '-' :: r => r | _ => lex
  let mant := body.takeWhile (fun c => ¬(c = 'e' ∨ c = 'E'))
  decide (mant ≠ []) && mant.all (fun c => c = '0' ∨ c = '.')

/-- Python falsiness of `tool_selection.get("tool")` (`None`, `False`, zero,
empty string/list/dict are falsy). -/
def pyFalsyOpt : Option Json → Bool
  | none => true
  | some .null => true
  | some (.bool b) => !b
  | some (.str s) => s.isEmpty
  | some (.num lex) => numIsZero lex
  | some (.arr l) => l.isEmpty
  | some (.obj l) => l.isEmpty

/-- The three error-sentinel tool names checked by `process_request`. -/
def sentinelNames : List PyStr :=
  [pys "error_parsing_llm_response", pys "error_in_tool_determination",
   pys "error_invalid_llm_response_structure"]

/-- The `details` string of the parse-failure sentinel when the brace-span
fallback also failed to parse. -/
def dParseFail1 : PyStr := pys "Could not parse JSON from LLM after cleaning and fallback."

/-- The `details` string of the parse-failure sentinel when the brace-span
fallback found no span at all. -/
def dParseFail2 : PyStr := pys "Could not parse JSON from LLM, and fallback regex found nothing."

/-- The `details` string of the structural-validation sentinel. -/
def dInvalidStruct : PyStr := pys "LLM response not a dict or missing \x27tool\x27 key."

/-- The structure validation at the end of `_determine_tool`: a parsed value
that is not a dict or lacks a `tool` key is replaced by the
`error_invalid_llm_response_structure` sentinel. -/
def validateDecision (v : Json) : List (PyStr × Json) :=
  match v with
  | .obj kvs =>
    if (lookupKey (pys "tool") kvs).isSome then kvs
    else
      [(pys "tool", .str (pys "error_invalid_llm_response_structure")),
       (pys "parameters", .obj [(pys "details", .str dInvalidStruct),
                                (pys "parsed_content", v)])]
  | _ =>
    [(pys "tool", .str (pys "error_invalid_llm_response_structure")),
     (pys "parameters", .obj [(pys "details", .str dInvalidStruct),
                              (pys "parsed_content", v)])]

/-- Model of `AIAgent._determine_tool`.  The LLM call is abstracted as its
outcome `llm`: either the raw reply text or a raised exception.  The rest is
the source's staged interpretation: clean and strict-parse, else brace-span
fallback on the original raw text, else a parse-error sentinel; a successful
parse is structurally validated. -/
def determineTool (llm : Except PyExc PyStr) : List (PyStr × Json) :=
  match llm with
  | .error e =>
    [(pys "tool", .str (pys "error_in_tool_determination")),
     (pys "parameters", .obj [(pys "details", .str (excStr e))])]
  | .ok raw =>
    match jsonLoads (cleanLLM raw) with
    | some v => validateDecision v
    | none =>
      match braceSpan raw with
      | some span =>
        match jsonLoads span with
        | some v => validateDecision v
        | none =>
          [(pys "tool", .str (pys "error_parsing_llm_response")),
           (pys "parameters", .obj [(pys "details", .str dParseFail1),
                                    (pys "raw_content", .str raw)])]
      | none =>
        [(pys "tool", .str (pys "error_parsing_llm_response")),
         (pys "parameters", .obj [(pys "details", .str dParseFail2),
                                  (pys "raw_content", .str raw)])]

/-- An exact rational as an unnormalized fraction with positive denominator
(kept unnormalized so that evaluation reduces definitionally in the kernel;
`⟨4, 1⟩` denotes the Python float `4.0`). -/
structure PyNum where
  n : ℤ
  d : ℤ

/-- Exact addition. -/
def PyNum.add (a b : PyNum) : PyNum := ⟨a.n * b.d + b.n * a.d, a.d * b.d⟩

/-- Exact subtraction. -/
def PyNum.sub (a b : PyNum) : PyNum := ⟨a.n * b.d - b.n * a.d, a.d * b.d⟩

/-- Exact multiplication. -/
def PyNum.mul (a b : PyNum) : PyNum := ⟨a.n * b.n, a.d * b.d⟩

/-- Negation. -/
def PyNum.neg (a : PyNum) : PyNum := ⟨-a.n, a.d⟩

/-- Exact division (the divisor is checked to be nonzero by the caller);
the denominator is kept positive. -/
def PyNum.divQ (a b : PyNum) : PyNum :=
  let n := a.n * b.d
  let d := a.d * b.n
  if d < 0 then ⟨-n, -d⟩ else ⟨n, d⟩

/-- Whether the value is zero. -/
def PyNum.isZero (a : PyNum) : Bool := a.n = 0

/-- The floor of the value (Python `//` on the exact fragment). -/
def PyNum.floorI (a : PyNum) : ℤ := Int.fdiv a.n a.d

/-- Natural power. -/
def PyNum.powNat (a : PyNum) (k : Nat) : PyNum := ⟨a.n ^ k, a.d ^ k⟩

/-- Reciprocal (of a nonzero value). -/
def PyNum.inv (a : PyNum) : PyNum :=
  if a.n < 0 then ⟨-a.d, -a.n⟩ else ⟨a.d, a.n⟩

/-- Embedding of an integer. -/
def PyNum.fromInt (z : ℤ) : PyNum := ⟨z, 1⟩

/-- Whether the value is integral, i.e. usable as a `**` exponent inside the
exact fragment. -/
def PyNum.isIntegral (a : PyNum) : Bool := a.n % a.d = 0

/-- The integer value of an integral `PyNum`. -/
def PyNum.toInt (a : PyNum) : ℤ := Int.fdiv a.n a.d

/-- Values a tool's `execute` can return (the calculator returns a float —
modelled exactly on the rounding-free fragment — every other path returns a
string). -/
inductive PyValue where
  | str (s : PyStr)
  | float (q : PyNum)

/-- A registered tool: its registry name, the parameter names of its
`execute` signature (all required, as in the source), and its behaviour as a
function from the keyword-argument mapping to a result or a raised
exception. -/
structure Tool where
  name : PyStr
  paramNames : List PyStr
  run : List (PyStr × Json) → Except PyExc PyValue

/-- Dictionary lookup in the tool registry. -/
def findTool (reg : List Tool) (s : PyStr) : Option Tool :=
  reg.find? (fun t => t.name = s)

/-- Whether the supplied keyword names bind the signature exactly (every
parameter required, no extras accepted) — the condition under which Python's
`tool.execute(**parameters)` call itself raises `TypeError`. -/
def keysMatch (ks names : List PyStr) : Bool :=
  ks.all (fun k => names.any (fun n => n = k)) &&
    names.all (fun n => ks.any (fun k => k = n))

/-- The `str()` of the `TypeError` raised by a keyword-argument mismatch
(modelled text; the claims constrain only the surrounding message). -/
def teBadSignature : PyStr := pys "execute() got parameters not matching its signature"

/-- Model of the call `tool.execute(**parameters)`: argument binding raises
`TypeError` on a name mismatch, otherwise the tool body runs. -/
def callTool (t : Tool) (params : List (PyStr × Json)) : Except PyExc PyValue :=
  if keysMatch (params.map Prod.fst) t.paramNames then t.run params
  else .error (.typeError teBadSignature)

/-- The dispatcher's parameter coercion: `get("parameters", {})` followed by
the `isinstance(parameters, dict)` check that replaces a non-mapping by the
empty mapping. -/
def dispatchParams (d : List (PyStr × Json)) : List (PyStr × Json) :=
  match lookupKey (pys "parameters") d with
  | some (.obj kvs) => kvs
  | _ => []

/-- `parameters.get("details", "Unknown error during tool determination.")`
as rendered into the failure message. -/
def detailsOf (params : List (PyStr × Json)) : PyStr :=
  match lookupKey (pys "details") params with
  | some v => pyStr v
  | none => pys "Unknown error during tool determination."

/-- Whether `tool_name` is one of the error sentinels (Python list
membership via `==`; only a string can equal a sentinel string). -/
def toolIsSentinel (v : Option Json) : Bool :=
  match v with
  | some (.str s) => sentinelNames.any (fun n => n = s)
  | _ => false

/-- The condition `tool_name == "no_tool_needed" or not tool_name`. -/
def isNoTool (v : Option Json) : Bool :=
  (match v with
   | some (.str s) => s = pys "no_tool_needed"
   | _ => false) || pyFalsyOpt v

/-- The fixed reply when no tool is needed or none was specified. -/
def msgNoTool : PyStr :=
  pys "I\x27ve processed your request. No specific tool was needed, or I couldn\x27t determine one. How else can I help?"

/-- The tool-determination failure message with its rendered details. -/
def msgTrouble (details : PyStr) : PyStr :=
  pys "Sorry, I had trouble deciding which tool to use. Details: " ++ details

/-- The unknown-tool message naming the unrecognized tool. -/
def msgUnknownTool (tn : Option Json) : PyStr :=
  pys "Sorry, I don\x27t know how to use the tool \x27" ++ pyStrOpt tn ++
    pys "\x27 or it\x27s not available."

/-- Python `repr` of a list of strings, as interpolated by the
parameter-mismatch message. -/
def pyListRepr (xs : List PyStr) : PyStr :=
  '[' :: (joinSep (pys ", ") (xs.map pyReprStr) ++ [']'])

/-- The parameter-mismatch message naming the tool, its expected parameter
names and the names actually supplied. -/
def msgBadParams (toolName : PyStr) (expected got : List PyStr) (te : PyStr) : PyStr :=
  pys "Error using tool " ++ toolName ++ pys ": incorrect parameters. Expected: " ++
    pyListRepr expected ++ pys ". Got: " ++ pyListRepr got ++ pys ". Details: " ++ te

/-- The generic per-tool error message. -/
def msgToolError (toolName : PyStr) (e : PyStr) : PyStr :=
  pys "Sorry, an error occurred while using the " ++ toolName ++ pys " tool: " ++ e

/-- The catch-all message of `process_request`. -/
def msgUnexpected (e : PyStr) : PyStr :=
  pys "An unexpected error occurred: " ++ e

/-- The body of `process_request` inside its outer `try`, with every
possibly-raising step explicit in the `Except` monad: interpret the LLM
outcome, check the sentinels, the `no_tool_needed`/falsy branch, registry
membership (an unhashable `tool_name` — a dict or list — makes the Python
`in` test itself raise `TypeError`), then invoke the tool, converting a
binding `TypeError` into the parameter-mismatch message and any other tool
exception into the per-tool error message.  The user input reaches the
result only through the LLM call, which is abstracted as `llm`. -/
def processRequestE (reg : List Tool) (llm : Except PyExc PyStr) :
    Except PyExc PyValue :=
  let d := determineTool llm
  let toolName := lookupKey (pys "tool") d
  let params := dispatchParams d
  if toolIsSentinel toolName then .ok (.str (msgTrouble (detailsOf params)))
  else if isNoTool toolName then .ok (.str msgNoTool)
  else
    match toolName with
    | some (.obj _) => .error (.typeError (pys "unhashable type: \x27dict\x27"))
    | some (.arr _) => .error (.typeError (pys "unhashable type: \x27list\x27"))
    | _ =>
      match (match toolName with
             | some (.str s) => findTool reg s
             | _ => none) with
      | none => .ok (.str (msgUnknownTool toolName))
      | some t =>
        match callTool t params with
        | .ok v => .ok v
        | .error (.typeError te) =>
          .ok (.str (msgBadParams t.name t.paramNames (params.map Prod.fst) te))
        | .error e => .ok (.str (msgToolError t.name (excStr e)))

/-- Model of `AIAgent.process_request`: the body wrapped in the outer
catch-all that converts any escaped exception into the "unexpected error"
message. -/
def processRequest (reg : List Tool) (llm : Except PyExc PyStr) :
    Except PyExc PyValue :=
  match processRequestE reg llm with
  | .ok v => .ok v
  | .error e => .ok (.str (msgUnexpected (excStr e)))

/-- The character class admitted by the calculator's validation regex
`^[a-zA-Z0-9\s_.\+\-\*/\(\)\^%]*$` (`\s` restricted to ASCII whitespace; a
non-ASCII space would merely move an input between two error paths no claim
distinguishes). -/
def allowedCalcChar (c : Char) : Bool :=
  c.isAlpha || c.isDigit || isPySpace c || c = '_' || c = '.' || c = '+' ||
    c = '-' || c = '*' || c = '/' || c = '(' || c = ')' || c = '^' || c = '%'

/-- The failures `eval` can produce on the modelled arithmetic fragment,
mapped to the exception classes the calculator's `except` arms distinguish. -/
inductive CalcErr where
  | divZero
  | synErr
  | nameErr (name : PyStr)
  | otherErr (msg kind : PyStr)

/-- Tokens of the arithmetic fragment evaluated by the calculator's `eval`
call: numeric literals, `+ - * / // % **`, parentheses. -/
inductive CTok where
  | num (q : PyNum) (isFloat : Bool)
  | add | sub | mul | divT | divF | mod | pow
  | lp | rp

/-- Numeric value of a digit string. -/
def digitsVal (ds : PyStr) : PyNum :=
  PyNum.fromInt (ds.foldl (fun acc c => acc * 10 + ((c.toNat - 48 : ℕ) : ℤ)) 0)

/-- Exact value of the fractional digits after a decimal point. -/
def fracVal (ds : PyStr) : PyNum := ⟨(digitsVal ds).n, (10 : ℤ) ^ ds.length⟩

/-- Tokenizer for the arithmetic fragment.  An identifier produces the
`NameError` the restricted `eval` environment raises for an undefined name;
the `math`-module names the source injects into that environment are outside
the modelled fragment (no claim evaluates them).  Any other unexpected
character is a syntax error. -/
def tokenize : Nat → PyStr → Except CalcErr (List CTok)
  | 0, _ => .error (.otherErr (pys "tokenizer out of fuel") (pys "Exception"))
  | _ + 1, [] => .ok []
  | fuel + 1, c :: rest =>
    if isPySpace c then tokenize fuel rest
    else if c.isDigit ∨ c = '.' then
      let ip := spanDigits (c :: rest)
      match ip.2 with
      | '.' :: r2 =>
        let fp := spanDigits r2
        if ip.1 = [] ∧ fp.1 = [] then .error .synErr
        else
          (tokenize fuel fp.2).map
            (fun ts => CTok.num (PyNum.add (digitsVal ip.1) (fracVal fp.1)) true :: ts)
      | _ =>
        (tokenize fuel ip.2).map (fun ts => CTok.num (digitsVal ip.1) false :: ts)
    else if c.isAlpha ∨ c = '_' then
      let nm := (c :: rest).takeWhile (fun x => x.isAlpha ∨ x.isDigit ∨ x = '_')
      .error (.nameErr nm)
    else if c = '*' then
      match rest with
      | '*' :: r2 => (tokenize fuel r2).map (CTok.pow :: ·)
      | _ => (tokenize fuel rest).map (CTok.mul :: ·)
    else if c = '/' then
      match rest with
      | '/' :: r2 => (tokenize fuel r2).map (CTok.divF :: ·)
      | _ => (tokenize fuel rest).map (CTok.divT :: ·)
    else if c = '+' then (tokenize fuel rest).map (CTok.add :: ·)
    else if c = '-' then (tokenize fuel rest).map (CTok.sub :: ·)
    else if c = '%' then (tokenize fuel rest).map (CTok.mod :: ·)
    else if c = '(' then (tokenize fuel rest).map (CTok.lp :: ·)
    else if c = ')' then (tokenize fuel rest).map (CTok.rp :: ·)
    else .error .synErr

/-- Abstract syntax of the arithmetic fragment (Python precedence: `**`
binds tightest and right-associatively with a primary base, then unary
sign, then `* / // %`, then `+ -`). -/
inductive AExpr where
  | num (q : PyNum) (isFloat : Bool)
  | neg (e : AExpr)
  | pos (e : AExpr)
  | add (a b : AExpr)
  | sub (a b : AExpr)
  | mul (a b : AExpr)
  | divT (a b : AExpr)
  | divF (a b : AExpr)
  | mod (a b : AExpr)
  | pow (a b : AExpr)

mutual

/-- Parse an additive expression. -/
def parseAdd : Nat → List CTok → Except CalcErr (AExpr × List CTok)
  | 0, _ => .error .synErr
  | fuel + 1, ts =>
    match parseMul fuel ts with
    | .ok (a, rest) => parseAddRest fuel a rest
    | .error e => .error e

/-- Parse the `(+|-) term` continuations of an additive expression. -/
def parseAddRest : Nat → AExpr → List CTok → Except CalcErr (AExpr × List CTok)
  | 0, _, _ => .error .synErr
  | fuel + 1, a, ts =>
    match ts with
    | CTok.add :: r =>
      match parseMul fuel r with
      | .ok (b, rest) => parseAddRest fuel (AExpr.add a b) rest
      | .error e => .error e
    | CTok.sub :: r =>
      match parseMul fuel r with
      | .ok (b, rest) => parseAddRest fuel (AExpr.sub a b) rest
      | .error e => .error e
    | _ => .ok (a, ts)

/-- Parse a multiplicative expression. -/
def parseMul : Nat → List CTok → Except CalcErr (AExpr × List CTok)
  | 0, _ => .error .synErr
  | fuel + 1, ts =>
    match parseUnary fuel ts with
    | .ok (a, rest) => parseMulRest fuel a rest
    | .error e => .error e

/-- Parse the `(*|/|//|%) factor` continuations. -/
def parseMulRest : Nat → AExpr → List CTok → Except CalcErr (AExpr × List CTok)
  | 0, _, _ => .error .synErr
  | fuel + 1, a, ts =>
    match ts with
    | CTok.mul :: r =>
      match parseUnary fuel r with
      | .ok (b, rest) => parseMulRest fuel (AExpr.mul a b) rest
      | .error e => .error e
    | CTok.divT :: r =>
      match parseUnary fuel r with
      | .ok (b, rest) => parseMulRest fuel (AExpr.divT a b) rest
      | .error e => .error e
    | CTok.divF :: r =>
      match parseUnary fuel r with
      | .ok (b, rest) => parseMulRest fuel (AExpr.divF a b) rest
      | .error e => .error e
    | CTok.mod :: r =>
      match parseUnary fuel r with
      | .ok (b, rest) => parseMulRest fuel (AExpr.mod a b) rest
      | .error e => .error e
    | _ => .ok (a, ts)

/-- Parse a signed factor. -/
def parseUnary : Nat → List CTok → Except CalcErr (AExpr × List CTok)
  | 0, _ => .error .synErr
  | fuel + 1, ts =>
    match ts with
    | CTok.add :: r =>
      match parseUnary fuel r with
      | .ok (e, rest) => .ok (AExpr.pos e, rest)
      | .error e => .error e
    | CTok.sub :: r =>
      match parseUnary fuel r with
      | .ok (e, rest) => .ok (AExpr.neg e, rest)
      | .error e => .error e
    | _ => parsePow fuel ts

/-- Parse a primary possibly raised to a signed-factor exponent. -/
def parsePow : Nat → List CTok → Except CalcErr (AExpr × List CTok)
  | 0, _ => .error .synErr
  | fuel + 1, ts =>
    match parseAtom fuel ts with
    | .ok (a, rest) =>
      match rest with
      | CTok.pow :: r =>
        match parseUnary fuel r with
        | .ok (b, rest2) => .ok (AExpr.pow a b, rest2)
        | .error e => .error e
      | _ => .ok (a, rest)
    | .error e => .error e

/-- Parse a primary: a literal or a parenthesised expression. -/
def parseAtom : Nat → List CTok → Except CalcErr (AExpr × List CTok)
  | 0, _ => .error .synErr
  | fuel + 1, ts =>
    match ts with
    | CTok.num q f :: r => .ok (AExpr.num q f, r)
    | CTok.lp :: r =>
      match parseAdd fuel r with
      | .ok (e, rest) =>
        match rest with
        | CTok.rp :: rest2 => .ok (e, rest2)
        | _ => .error .synErr
      | .error er => .error er
    | _ => .error .synErr

end

/-- Evaluate an arithmetic expression with CPython's numeric semantics on
the rounding-free fragment: `int` arithmetic is exact, `/` yields a float,
`//` and `%` floor, `**` with an integral exponent is exact (a negative
exponent yields a float, a zero base with a negative exponent raises
`ZeroDivisionError`); a fractional exponent leaves the exact fragment and is
reported as an unmodelled failure.  The float results a real interpreter
would round are represented exactly; the claims only evaluate integer
arithmetic, where the two agree. -/
def evalA : AExpr → Except CalcErr (PyNum × Bool)
  | .num q f => .ok (q, f)
  | .pos e => evalA e
  | .neg e => (evalA e).map (fun r => (PyNum.neg r.1, r.2))
  | .add a b => do
    let x ← evalA a; let y ← evalA b; return (PyNum.add x.1 y.1, x.2 || y.2)
  | .sub a b => do
    let x ← evalA a; let y ← evalA b; return (PyNum.sub x.1 y.1, x.2 || y.2)
  | .mul a b => do
    let x ← evalA a; let y ← evalA b; return (PyNum.mul x.1 y.1, x.2 || y.2)
  | .divT a b => do
    let x ← evalA a; let y ← evalA b
    if PyNum.isZero y.1 then throw .divZero
    else return (PyNum.divQ x.1 y.1, true)
  | .divF a b => do
    let x ← evalA a; let y ← evalA b
    if PyNum.isZero y.1 then throw .divZero
    else return (PyNum.fromInt (PyNum.floorI (PyNum.divQ x.1 y.1)), x.2 || y.2)
  | .mod a b => do
    let x ← evalA a; let y ← evalA b
    if PyNum.isZero y.1 then throw .divZero
    else
      return (PyNum.sub x.1
        (PyNum.mul y.1 (PyNum.fromInt (PyNum.floorI (PyNum.divQ x.1 y.1)))),
        x.2 || y.2)
  | .pow a b => do
    let x ← evalA a; let y ← evalA b
    if PyNum.isIntegral y.1 then
      let k := PyNum.toInt y.1
      if 0 ≤ k then return (PyNum.powNat x.1 k.toNat, x.2 || y.2)
      else if PyNum.isZero x.1 then throw .divZero
      else return (PyNum.powNat (PyNum.inv x.1) (-k).toNat, true)
    else
      throw (.otherErr (pys "fractional exponent outside the modelled exact fragment")
        (pys "Exception"))

/-- `eval` on the arithmetic fragment: tokenize, parse a full expression
(leftover tokens are a syntax error, as CPython rejects them at compile
time before any evaluation), then evaluate. -/
def evalArith (cs : PyStr) : Except CalcErr (PyNum × Bool) :=
  match tokenize (cs.length + 1) cs with
  | .error e => .error e
  | .ok ts =>
    match parseAdd (5 * ts.length + 10) ts with
    | .ok (e, []) => evalA e
    | .ok (_, _ :: _) => .error .synErr
    | .error e => .error e

/-- The body of `CalculatorTool.execute` for a string argument: the
empty-expression check, the character whitelist, the `^` → `**` rewrite,
then the guarded `eval` whose exception arms each produce their message;
a numeric result is returned as `float(result)`. -/
def calcBody (expression : PyStr) : PyValue :=
  if pstrip expression = [] then .str (pys "Error: Empty expression provided.")
  else if ¬ expression.all allowedCalcChar then
    .str (pys "Error: Expression \x27" ++ expression ++
      pys "\x27 contains invalid characters.")
  else
    let processed := (expression.map (fun c => if c = '^' then pys "**" else [c])).flatten
    match evalArith processed with
    | .ok r => .float r.1
    | .error .divZero => .str (pys "Error: Cannot divide by zero.")
    | .error .synErr =>
      .str (pys "Error: Invalid syntax in expression: \x27" ++ expression ++ pys "\x27.")
    | .error (.nameErr nm) =>
      .str (pys "Error: Unknown function or variable in expression: \x27" ++ expression ++
        pys "\x27. Details: name \x27" ++ nm ++ pys "\x27 is not defined")
    | .error (.otherErr m k) =>
      .str (pys "Error calculating expression \x27" ++ expression ++ pys "\x27: " ++ m ++
        pys " (Type: " ++ k ++ pys ")")

/-- `CalculatorTool` as registered: `execute(expression)`.  A non-string
argument raises `AttributeError` at the `expression.strip()` call, which
sits before the `try` block and so propagates out of the tool. -/
def calculatorTool : Tool :=
  { name := pys "calculator"
    paramNames := [pys "expression"]
    run := fun kvs =>
      match lookupKey (pys "expression") kvs with
      | some (.str s) => .ok (calcBody s)
      | some _ => .error (.attributeError (pys "object has no attribute \x27strip\x27"))
      | none => .error (.typeError (pys "execute() missing a required argument")) }

/-- `str.split("/")`. -/
def splitSlash : PyStr → List PyStr
  | [] => [[]]
  | c :: rest =>
    if c = '/' then [] :: splitSlash rest
    else
      match splitSlash rest with
      | h :: t => (c :: h) :: t
      | [] => [[c]]

/-- One step of CPython's `posixpath.normpath` component loop: skip empty
and `.` components, append ordinary components, and let `..` pop the last
component unless the path is relative and empty so far, or already ends in
`..`. -/
def normStep (slashes : Nat) (acc : List PyStr) (comp : PyStr) : List PyStr :=
  if comp = [] ∨ comp = pys "." then acc
  else if ¬ comp = pys ".." ∨ (slashes = 0 ∧ acc = []) ∨
      acc.getLast? = some (pys "..") then acc ++ [comp]
  else acc.dropLast

/-- Model of `posixpath.normpath` (POSIX keeps exactly two leading slashes
special). -/
def normpath (p : PyStr) : PyStr :=
  if p = [] then pys "."
  else
    let slashes : Nat :=
      if (pys "//").isPrefixOf p ∧ ¬ (pys "///").isPrefixOf p then 2
      else if (pys "/").isPrefixOf p then 1 else 0
    let comps := (splitSlash p).foldl (normStep slashes) []
    let path := List.replicate slashes '/' ++ joinSep (pys "/") comps
    if path = [] then pys "." else path

/-- `posixpath.isabs`. -/
def isAbsP (p : PyStr) : Bool := (pys "/").isPrefixOf p

/-- `posixpath.join` of two segments. -/
def pjoin (a b : PyStr) : PyStr :=
  if isAbsP b then b
  else if a = [] ∨ a.getLast? = some '/' then a ++ b
  else a ++ '/' :: b

/-- `posixpath.abspath` relative to the process working directory. -/
def abspath (cwd p : PyStr) : PyStr :=
  normpath (if isAbsP p then p else pjoin cwd p)

/-- The lowercased extension `os.path.splitext(path)[1].lower()` (leading
dots of the basename do not start an extension). -/
def extOf (p : PyStr) : PyStr :=
  let b := (p.reverse.takeWhile (fun c => ¬ c = '/')).reverse
  let core := b.dropWhile (fun c => c = '.')
  if core.any (fun c => c = '.') then
    ('.' :: (core.reverse.takeWhile (fun c => ¬ c = '.')).reverse).map Char.toLower
  else []

/-- Collapse runs of spaces to one space (`re.sub(r" +", " ", text)`). -/
def collapseSpaceRuns : PyStr → PyStr
  | [] => []
  | [c] => [c]
  | c1 :: c2 :: rest =>
    if c1 = ' ' ∧ c2 = ' ' then collapseSpaceRuns (c2 :: rest)
    else c1 :: collapseSpaceRuns (c2 :: rest)

/-- Collapse a backslash followed by a run of `n` characters
(`re.sub(r"\\n+", "\\n", text)` — note the source's pattern matches a
literal backslash, not a newline). -/
def collapseBackslashN : Nat → PyStr → PyStr
  | 0, cs => cs
  | _ + 1, [] => []
  | fuel + 1, c :: rest =>
    if c = '\\' ∧ rest.headI = 'n' then
      '\\' :: 'n' :: collapseBackslashN fuel (rest.dropWhile (fun x => x = 'n'))
    else c :: collapseBackslashN fuel rest

/-- Split on a literal separator sequence. -/
def splitSeq (sep : PyStr) : Nat → PyStr → List PyStr
  | 0, cs => [cs]
  | _ + 1, [] => [[]]
  | fuel + 1, c :: rest =>
    if sep ≠ [] ∧ sep.isPrefixOf (c :: rest) then
      [] :: splitSeq sep fuel ((c :: rest).drop sep.length)
    else
      match splitSeq sep fuel rest with
      | h :: t => (c :: h) :: t
      | [] => [[c]]

/-- Replace every occurrence of a literal sequence. -/
def replaceSeq (pat rep : PyStr) : Nat → PyStr → PyStr
  | 0, cs => cs
  | _ + 1, [] => []
  | fuel + 1, c :: rest =>
    if pat ≠ [] ∧ pat.isPrefixOf (c :: rest) then
      rep ++ replaceSeq pat rep fuel ((c :: rest).drop pat.length)
    else c :: replaceSeq pat rep fuel rest

/-- Model of `_clean_pdf_text`, operating on the literal two-character
`\n` sequences its source patterns actually denote. -/
def cleanPdfText (text : PyStr) : PyStr :=
  if text = [] then []
  else
    let t1 := collapseSpaceRuns text
    let t2 := collapseBackslashN (t1.length + 1) t1
    let lines := splitSeq (pys "\\n") (t2.length + 1) t2
    let t3 := joinSep (pys "\\n") (lines.map pstrip)
    let t4 := replaceSeq (pys " \\n ") (pys " ") (t3.length + 1) t3
    pstrip t4

/-- The outcome of the PyPDF2 extraction, abstracted: the joined page text,
a `PdfReadError`, or another exception. -/
inductive PdfRes where
  | ok (text : PyStr)
  | readError (msg : PyStr)
  | exc (msg : PyStr)

/-- The file-system facts `FileReaderTool.execute` consults, keyed by the
resolved absolute path: regular-file contents, directory existence, byte
size, UTF-8 decodability, and the PyPDF2 extraction outcome. -/
structure FREnv where
  files : PyStr → Option PyStr
  dirs : PyStr → Bool
  sizeOfFile : PyStr → Nat
  decodeOk : PyStr → Bool
  pdfText : PyStr → PdfRes
  pdfAvailable : Bool

/-- `MAX_FILE_SIZE_BYTES`. -/
def maxFileSizeBytes : Nat := 1048576

/-- `MAX_CHARS_RETURN`. -/
def maxCharsReturn : Nat := 10000

/-- The common truncation and emptiness handling after a successful read. -/
def finishContent (fp content : PyStr) : PyStr :=
  if content.length > maxCharsReturn then
    content.take maxCharsReturn ++
      pys "\n... (file content truncated at 10000 characters)"
  else if pstrip content = [] then
    pys "Info: File \x27" ++ fp ++
      pys "\x27 is empty or contains no extractable/readable text content after processing."
  else content

/-- The part of `FileReaderTool.execute` after the path guards: existence,
file-ness and size checks, then the PDF or plain-text read, then the common
truncation/emptiness handling. -/
def readPhase (env : FREnv) (fp resolved : PyStr) : PyStr :=
  if (env.files resolved).isNone ∧ ¬ env.dirs resolved then
    pys "Error: File not found at \x27" ++ fp ++ pys "\x27 (resolved: \x27" ++
      resolved ++ pys "\x27)"
  else
    match env.files resolved with
    | none => pys "Error: Path \x27" ++ fp ++ pys "\x27 is not a file."
    | some content =>
      if env.sizeOfFile resolved > maxFileSizeBytes then
        pys "Error: File \x27" ++ fp ++ pys "\x27 too large (>1.0MB)."
      else if extOf resolved = pys ".pdf" then
        if ¬ env.pdfAvailable then
          pys "Error: Cannot read PDF. PyPDF2 library is not installed. Please install it (e.g., pip install PyPDF2)."
        else
          match env.pdfText resolved with
          | .readError m =>
            pys "Error reading PDF \x27" ++ fp ++
              pys "\x27: Invalid or corrupted PDF file. Details: " ++ m
          | .exc m => pys "Error processing PDF file \x27" ++ fp ++ pys "\x27: " ++ m
          | .ok raw =>
            let cleaned := cleanPdfText raw
            if pstrip cleaned = [] then
              pys "Info: PDF file \x27" ++ fp ++
                pys "\x27 was read, but no text content could be extracted or remained after cleaning (it might be an image-based PDF or empty)."
            else finishContent fp cleaned
      else
        if ¬ env.decodeOk resolved then
          pys "Error: Could not decode file \x27" ++ fp ++
            pys "\x27 using UTF-8. It might be a binary file of an unsupported type or use a different encoding."
        else finishContent fp (content.take (maxCharsReturn + 1))

/-- Model of `FileReaderTool.execute` for a string `file_path`: the
emptiness check, path resolution against `FILE_READ_BASE_PATH` (the process
working directory `cwd`), the three sandbox guards in source order
(`startswith` on the resolved path, the `..` substring check, the absolute
path check), then the read phase. -/
def executeFR (env : FREnv) (cwd fp : PyStr) : PyStr :=
  if fp = [] then pys "Error: File path parameter is required."
  else
    let resolved := abspath cwd (pjoin cwd fp)
    if ¬ (abspath cwd cwd).isPrefixOf resolved then
      pys "Error: Access denied. Path is outside allowed directory."
    else if containsSeq (pys "..") fp then
      pys "Error: Path should not contain \x27..\x27."
    else if isAbsP fp then pys "Error: Absolute file paths are not allowed."
    else readPhase env fp resolved

/-- `FileReaderTool` as registered: `execute(file_path)`.  A falsy
non-string argument hits the `if not file_path` guard; a truthy non-string
makes `os.path.join` raise inside the first `try`, whose handler returns the
"Error processing file_path" string. -/
def fileReaderTool (env : FREnv) (cwd : PyStr) : Tool :=
  { name := pys "file_reader"
    paramNames := [pys "file_path"]
    run := fun kvs =>
      match lookupKey (pys "file_path") kvs with
      | some (.str s) => .ok (.str (executeFR env cwd s))
      | some v =>
        if pyFalsyOpt (some v) then
          .ok (.str (pys "Error: File path parameter is required."))
        else
          .ok (.str (pys "Error processing file_path \x27" ++ pyStr v ++
            pys "\x27: unsupported path argument type"))
      | none => .error (.typeError (pys "execute() missing a required argument")) }

/-- The environment of `WeatherFetcherTool.execute`: the `WEATHER_API_KEY`
variable and the HTTP interaction (request, response decoding and
formatting), abstracted as a function of the city argument. -/
structure WEnv where
  apiKey : Option PyStr
  fetch : Json → Except PyExc PyValue

/-- `WeatherFetcherTool` as registered: `execute(city)` with its missing-city
and missing-key guards; the network interaction is the abstract `fetch`. -/
def weatherTool (w : WEnv) : Tool :=
  { name := pys "weather_fetcher"
    paramNames := [pys "city"]
    run := fun kvs =>
      match lookupKey (pys "city") kvs with
      | some v =>
        if pyFalsyOpt (some v) then .ok (.str (pys "Error: City parameter is required."))
        else
          match w.apiKey with
          | none =>
            .ok (.str (pys "Error: WEATHER_API_KEY is not set in the environment. This tool cannot function."))
          | some _ => w.fetch v
      | none => .error (.typeError (pys "execute() missing a required argument")) }

/-- The agent's tool registry (`self.tools` in `AIAgent.__init__`). -/
def agentTools (fr : FREnv) (cwd : PyStr) (w : WEnv) : List Tool :=
  [calculatorTool, fileReaderTool fr cwd, weatherTool w]

/-- A concrete file-system environment with no files, for closed witnesses. -/
def emptyFREnv : FREnv :=
  { files := fun _ => none, dirs := fun _ => false, sizeOfFile := fun _ => 0,
    decodeOk := fun _ => true, pdfText := fun _ => .ok [], pdfAvailable := true }

/-- A concrete weather environment with no API key, for closed witnesses. -/
def noWEnv : WEnv := { apiKey := none, fetch := fun _ => .ok (.str []) }

/-- A fully concrete registry instance for closed witnesses. -/
def demoTools : List Tool := agentTools emptyFREnv (pys "/base") noWEnv

/-- `needle` occurs contiguously inside `hay` (used to state that a message
names a piece of text). -/
def occursIn (needle hay : PyStr) : Prop := ∃ a b, hay = a ++ needle ++ b

/-- A lowercase hexadecimal digit. -/
def hexDigit (n : Nat) : Char :=
  match n with
  | 0 => '0' | 1 => '1' | 2 => '2' | 3 => '3' | 4 => '4'
  | 5 => '5' | 6 => '6' | 7 => '7' | 8 => '8' | 9 => '9'
  | 10 => 'a' | 11 => 'b' | 12 => 'c' | 13 => 'd' | 14 => 'e'
  | _ => 'f'

/-- Escape one character of a JSON string for re-serialization, as
`json.dumps` does: quote, backslash and the short control escapes, `\u00xx`
for the remaining control characters, everything else verbatim (non-ASCII
kept verbatim rather than `\uXXXX`-escaped; `json.loads` maps both forms to
the same character). -/
def escJ (c : Char) : PyStr :=
  if c = '"' then ['\\', '"']
  else if c = '\\' then ['\\', '\\']
  else if c = '\n' then ['\\', 'n']
  else if c = '\t' then ['\\', 't']
  else if c = '\r' then ['\\', 'r']
  else if c = '\x08' then ['\\', 'b']
  else if c = '\x0c' then ['\\', 'f']
  else if c.toNat < 0x20 then
    ['\\', 'u', '0', '0', hexDigit (c.toNat / 16), hexDigit (c.toNat % 16)]
  else [c]

/-- Serialize a JSON string with its quotes. -/
def dumpStr (s : PyStr) : PyStr := '"' :: ((s.map escJ).flatten ++ ['"'])

mutual

/-- Canonical re-serialization of a decoded JSON value, as `json.dumps`
emits it with the default `", "`/`": "` separators; a number is emitted as
its lexeme. -/
def dumpJ : Json → PyStr
  | .null => pys "null"
  | .bool true => pys "true"
  | .bool false => pys "false"
  | .num lex => lex
  | .str s => dumpStr s
  | .arr [] => pys "[]"
  | .arr (x :: xs) => '[' :: (dumpJ x ++ dumpArrRest xs)
  | .obj [] => ['{', '}']
  | .obj ((k, v) :: kvs) =>
    '{' :: (dumpStr k ++ pys ": " ++ dumpJ v ++ dumpObjRest kvs)

/-- The remaining array elements, each preceded by `", "`, then `]`. -/
def dumpArrRest : List Json → PyStr
  | [] => [']']
  | x :: xs => ',' :: ' ' :: (dumpJ x ++ dumpArrRest xs)

/-- The remaining object members, each preceded by `", "`, then `}`. -/
def dumpObjRest : List (PyStr × Json) → PyStr
  | [] => ['}']
  | (k, v) :: kvs => ',' :: ' ' :: (dumpStr k ++ pys ": " ++ dumpJ v ++ dumpObjRest kvs)

end

mutual

/-- The parsing cost of a value: an upper bound on the parser fuel needed to
re-read its serialization. -/
def jsize : Json → Nat
  | .null | .bool _ | .num _ | .str _ => 1
  | .arr xs => 2 + asize xs
  | .obj kvs => 2 + msize kvs

/-- Parsing cost of array elements. -/
def asize : List Json → Nat
  | [] => 0
  | x :: xs => 2 + jsize x + asize xs

/-- Parsing cost of object members. -/
def msize : List (PyStr × Json) → Nat
  | [] => 0
  | (_, v) :: kvs => 2 + jsize v + msize kvs

end

mutual

/-- Python `==` on values decoded from JSON, as used when two ToolDecisions
are compared: `NaN` compares unequal to everything including itself; dicts
compare by size and per-key value equality.  Numbers are otherwise compared
by lexeme and cross-type numeric coincidences (`1 == 1.0`, `True == 1`) are
not identified — a finer relation than Python's, which agrees with it on the
reflexive comparisons and the `NaN` failures the claims exercise. -/
def pyEqJ : Json → Json → Bool
  | .null, .null => true
  | .bool a, .bool b => a == b
  | .num a, .num b => decide (¬ a = pys "NaN") && decide (¬ b = pys "NaN") && decide (a = b)
  | .str a, .str b => decide (a = b)
  | .arr a, .arr b => pyEqArr a b
  | .obj a, .obj b => decide (a.length = b.length) && pyEqMembers a b
  | _, _ => false

/-- Pointwise Python `==` on lists. -/
def pyEqArr : List Json → List Json → Bool
  | [], [] => true
  | x :: xs, y :: ys => pyEqJ x y && pyEqArr xs ys
  | _, _ => false

/-- Each key of the left dict maps to an equal value in the right dict. -/
def pyEqMembers : List (PyStr × Json) → List (PyStr × Json) → Bool
  | [], _ => true
  | (k, v) :: rest, b =>
    (match lookupKey k b with
     | some w => pyEqJ v w
     | none => false) && pyEqMembers rest b

end

mutual

/-- No `NaN` occurs in the value (the condition under which Python equality
can be reflexive). -/
def noNaNJ : Json → Bool
  | .num a => decide (¬ a = pys "NaN")
  | .arr xs => noNaNArr xs
  | .obj kvs => noNaNMembers kvs
  | _ => true

/-- No `NaN` in any element. -/
def noNaNArr : List Json → Bool
  | [] => true
  | x :: xs => noNaNJ x && noNaNArr xs

/-- No `NaN` in any member value. -/
def noNaNMembers : List (PyStr × Json) → Bool
  | [] => true
  | (_, v) :: kvs => noNaNJ v && noNaNMembers kvs

end

/-- The input continues with a structural delimiter (or ends): the contexts
in which a value's serialization is re-parsed. -/
def delimOk (cs : PyStr) : Prop :=
  cs = [] ∨ (∃ r, cs = ',' :: r) ∨ (∃ r, cs = '}' :: r) ∨ (∃ r, cs = ']' :: r)

/-- A nonempty string of decimal digits. -/
def digitsNE (ds : PyStr) : Prop := ¬ ds = [] ∧ ∀ c ∈ ds, c.isDigit = true

/-- The shape of a number lexeme's optional fraction part. -/
def frShape (fr : PyStr) : Prop := fr = [] ∨ ∃ ds, digitsNE ds ∧ fr = '.' :: ds

/-- The shape of a number lexeme's optional exponent part. -/
def exShape (ex : PyStr) : Prop :=
  ex = [] ∨ ∃ e sg ds, (e = 'e' ∨ e = 'E') ∧
    (sg = [] ∨ sg = ['+'] ∨ sg = ['-']) ∧ digitsNE ds ∧ ex = e :: (sg ++ ds)

/-- The shape of a finite JSON number lexeme, following the scanner's
`NUMBER_RE`: optional minus, integer part (`0` or no leading zero), optional
fraction, optional exponent. -/
def numShape (lex : PyStr) : Prop :=
  ∃ sgn ip fr ex : PyStr,
    lex = sgn ++ ip ++ fr ++ ex ∧
    (sgn = [] ∨ sgn = ['-']) ∧
    (ip = ['0'] ∨ (digitsNE ip ∧ ¬ ip.headI = '0')) ∧
    frShape fr ∧ exShape ex

/-- The exponent phase of `parseNumTail`, split out so that the two phases
can be reasoned about separately (`parseNumTail` is provably the fraction
phase followed by this). -/
def exPhase (acc1 : PyStr) (cs1 : PyStr) : PyStr × PyStr :=
  match cs1 with
  | e :: r =>
    if e = 'e' ∨ e = 'E' then
      let sg : PyStr × PyStr :=
        match r with
        | c2 :: rr => if c2 = '+' ∨ c2 = '-' then ([c2], rr) else ([], r)
        | [] => ([], r)
      match spanDigits sg.2 with
      | ([], _) => (acc1, cs1)
      | (ds, r3) => (acc1 ++ e :: (sg.1 ++ ds), r3)
    else (acc1, cs1)
  | [] => (acc1, [])

/-- A well-formed number lexeme: a grammatical finite number or one of the
scanner's constants. -/
def numLexWf (lex : PyStr) : Prop :=
  numShape lex ∨ lex = pys "NaN" ∨ lex = pys "Infinity" ∨ lex = pys "-Infinity"

/-- Well-formedness of a decoded JSON value as the parser produces it:
number lexemes are grammatical and object keys are duplicate-free. -/
inductive JsonWf : Json → Prop where
  | null : JsonWf .null
  | bool (b : Bool) : JsonWf (.bool b)
  | num (lex : PyStr) (h : numLexWf lex) : JsonWf (.num lex)
  | str (s : PyStr) : JsonWf (.str s)
  | arr (xs : List Json) (h : ∀ x ∈ xs, JsonWf x) : JsonWf (.arr xs)
  | obj (kvs : List (PyStr × Json)) (hv : ∀ kv ∈ kvs, JsonWf kv.2)
      (hk : (kvs.map Prod.fst).Nodup) : JsonWf (.obj kvs)

/-- The decision's `tool` value (present in every interpreter output). -/
def toolValOf (d : List (PyStr × Json)) : Json :=
  (lookupKey (pys "tool") d).getD Json.null

/-- Re-serialization of a ToolDecision's `{tool, parameters}` mapping to
JSON text. -/
def dumpDecision (d : List (PyStr × Json)) : PyStr :=
  dumpJ (.obj [(pys "tool", toolValOf d),
               (pys "parameters", .obj (dispatchParams d))])

/-- Python `==` of two ToolDecisions, compared as their canonical
`{tool, parameters}` projections. -/
def decisionEquiv (d1 d2 : List (PyStr × Json)) : Bool :=
  pyEqJ (toolValOf d1) (toolValOf d2) &&
    pyEqJ (.obj (dispatchParams d1)) (.obj (dispatchParams d2))

/-- No `NaN` occurs in the decision's tool value or parameters. -/
def noNaNDecision (d : List (PyStr × Json)) : Bool :=
  noNaNJ (toolValOf d) && noNaNJ (.obj (dispatchParams d))

/-- The base directory with a trailing slash (for the containment test). -/
def withSlash (cwd : PyStr) : PyStr :=
  if cwd.getLast? = some '/' then cwd else cwd ++ ['/']

/-- `q` lies under the directory `cwd`: it is `cwd` itself or extends it
past a path separator. -/
def underBase (cwd q : PyStr) : Prop :=
  q = cwd ∨ (withSlash cwd).isPrefixOf q = true

/-- `cwd` is a normalized absolute directory path, as `os.getcwd()`
returns: a leading slash followed by slash-joined components that are
nonempty, none of `.` or `..`, and slash-free; except for the root itself
the path does not end in a slash. -/
def NormAbsCwd (cwd : PyStr) : Prop :=
  ∃ comps : List PyStr,
    (∀ c ∈ comps, ¬ c = [] ∧ ¬ c = pys "." ∧ ¬ c = pys ".." ∧ ∀ x ∈ c, ¬ x = '/') ∧
    cwd = '/' :: joinSep (pys "/") comps ∧
    (comps = [] ∨ ¬ cwd.getLast? = some '/')

example : jsonLoads (pys "\x7b\"tool\": 5\x7d") =
    some (Json.obj [(pys "tool", Json.num (pys "5"))]) := rfl

example : jsonLoads (pys " \x7b \"a\" : [1, true, null, \"x\"] \x7d ") =
    some (Json.obj [(pys "a",
      Json.arr [Json.num (pys "1"), Json.bool true, Json.null,
        Json.str (pys "x")])]) := rfl

example : jsonLoads (pys "\x7b\"a\": 1\x7d extra") = none := rfl

example : jsonLoads (pys "NaN") = some (Json.num (pys "NaN")) := rfl

example : jsonLoads (pys "\x7b\"tool\": \"weather_fetcher\", \"parameters\": \x7b\"city\": \"Paris\"") = none := rfl

example : calcBody (pys "2+2") = PyValue.float ⟨4, 1⟩ := rfl

example : processRequest demoTools
    (.ok (pys "\x7b\"tool\": \"calculator\", \"parameters\": \x7b\"expression\": \"2+2\"\x7d\x7d")) =
    .ok (PyValue.float ⟨4, 1⟩) := rfl

example : determineTool
    (.ok (pys "Sure! \x7b\"tool\": \"weather_fetcher\", \"parameters\": \x7b\"city\": \"Paris\"\x7d\x7d Hope that helps.")) =
    [(pys "tool", Json.str (pys "error_parsing_llm_response")),
     (pys "parameters", Json.obj [(pys "details", Json.str dParseFail1),
        (pys "raw_content", Json.str (pys "Sure! \x7b\"tool\": \"weather_fetcher\", \"parameters\": \x7b\"city\": \"Paris\"\x7d\x7d Hope that helps."))])] := rfl

example : determineTool (.ok (pys "Sure! \x7b\"tool\": \"no_tool_needed\"\x7d done")) =
    [(pys "tool", Json.str (pys "no_tool_needed"))] := rfl

example : lookupKey (pys "tool") (determineTool (.ok (pys "\x7b\"tool\": 5\x7d"))) =
    some (Json.num (pys "5")) := rfl

example : processRequest demoTools (.ok (pys "I think you should check the weather.")) =
    .ok (.str (msgTrouble dParseFail2)) := rfl

example : processRequest demoTools
    (.ok (pys "\x7b\"tool\": \"translator\", \"parameters\": \x7b\x7d\x7d")) =
    .ok (.str (msgUnknownTool (some (Json.str (pys "translator"))))) := rfl

example : processRequest demoTools
    (.ok (pys "\x7b\"tool\": \"calculator\", \"parameters\": \x7b\"expr\": \"2+2\"\x7d\x7d")) =
    .ok (.str (msgBadParams (pys "calculator") [pys "expression"] [pys "expr"] teBadSignature)) := rfl

example : executeFR emptyFREnv (pys "/home/user") (pys "../secret") =
    pys "Error: Access denied. Path is outside allowed directory." := rfl

example : normpath (pys "/home/user/../secret") = pys "/home/secret" := rfl

example : executeFR emptyFREnv (pys "/a/b") (pys "../b2/x") =
    pys "Error: Path should not contain \x27..\x27." := rfl

example : executeFR emptyFREnv (pys "/a/b") (pys "/a/b/x") =
    pys "Error: Absolute file paths are not allowed." := rfl

example : cleanLLM (pys "```json\n\x7b\"tool\":\"no_tool_needed\",\"parameters\":\x7b\x7d\x7d\n```") =
    pys "\x7b\"tool\":\"no_tool_needed\",\"parameters\":\x7b\x7d\x7d" := rfl

/-- Every output of `validateDecision` carries a `tool` key. -/
theorem validateDecision_has_tool (v : Json) :
    ∃ w, lookupKey (pys "tool") (validateDecision v) = some w := by
  cases v with
  | obj kvs =>
    unfold validateDecision
    cases h : (lookupKey (pys "tool") kvs).isSome with
    | true =>
      simp only [h, if_true]
      exact Option.isSome_iff_exists.mp h
    | false => simp only [h, if_false]; exact ⟨_, rfl⟩
  | null => exact ⟨_, rfl⟩
  | bool b => exact ⟨_, rfl⟩
  | num lex => exact ⟨_, rfl⟩
  | str s => exact ⟨_, rfl⟩
  | arr xs => exact ⟨_, rfl⟩

/-- Every decision produced by the interpreter carries a `tool` key. -/
theorem determineTool_has_tool (llm : Except PyExc PyStr) :
    ∃ w, lookupKey (pys "tool") (determineTool llm) = some w := by
  cases llm with
  | error e => exact ⟨_, rfl⟩
  | ok raw =>
    cases hj : jsonLoads (cleanLLM raw) with
    | some v =>
      simp only [determineTool, hj]
      exact validateDecision_has_tool v
    | none =>
      cases hb : braceSpan raw with
      | none => simp only [determineTool, hj, hb]; exact ⟨_, rfl⟩
      | some span =>
        cases hs : jsonLoads span with
        | some v =>
          simp only [determineTool, hj, hb, hs]
          exact validateDecision_has_tool v
        | none => simp only [determineTool, hj, hb, hs]; exact ⟨_, rfl⟩

/-- When the interpreted tool name is a string that is neither a sentinel nor
the no-tool marker, the dispatcher proceeds to registry lookup and (possibly)
tool invocation; this lemma captures the common tail used by several claims. -/
theorem processRequest_dispatch (reg : List Tool) (llm : Except PyExc PyStr)
    (name : PyStr)
    (htool : lookupKey (pys "tool") (determineTool llm) = some (.str name))
    (hsent : toolIsSentinel (some (.str name)) = false)
    (hnotool : isNoTool (some (.str name)) = false) :
    processRequest reg llm =
      (match findTool reg name with
       | none => .ok (.str (msgUnknownTool (some (.str name))))
       | some t =>
         match callTool t (dispatchParams (determineTool llm)) with
         | .ok v => .ok v
         | .error (.typeError te) =>
           .ok (.str (msgBadParams t.name t.paramNames
             ((dispatchParams (determineTool llm)).map Prod.fst) te))
         | .error (.attributeError m) => .ok (.str (msgToolError t.name m))
         | .error (.other m) => .ok (.str (msgToolError t.name m))) := by
  cases hf : findTool reg name with
  | none =>
    simp only [processRequest, processRequestE, htool, hsent, hnotool, hf,
      Bool.false_eq_true, if_false]
  | some t =>
    cases hc : callTool t (dispatchParams (determineTool llm)) with
    | ok v =>
      simp only [processRequest, processRequestE, htool, hsent, hnotool, hf, hc,
        Bool.false_eq_true, if_false]
    | error e =>
      cases e <;>
        simp only [processRequest, processRequestE, htool, hsent, hnotool, hf, hc,
          Bool.false_eq_true, if_false, excStr]

/-- C3: for every tool registry (hence every behaviour of the registered
tools, including raising arbitrary exceptions) and every outcome of the LLM
call (a reply text or a raised exception), `process_request` returns a value
and never propagates an exception: the explicit `Except`-typed model of its
body always ends in `.ok`. -/
theorem claim_C3_never_raises (reg : List Tool) (llm : Except PyExc PyStr) :
    ∃ v, processRequest reg llm = .ok v := by
  unfold processRequest
  cases processRequestE reg llm with
  | ok v => exact ⟨v, rfl⟩
  | error e => exact ⟨.str (msgUnexpected (excStr e)), rfl⟩

/-- C5: for every LLM reply on which both extraction stages fail (the strict
parse of the cleaned text and the parse of the brace-span fallback, when one
exists), the interpreter returns the `error_parsing_llm_response` sentinel
carrying the original raw text, and `process_request` returns the fixed
"trouble deciding which tool to use" message embedding the details, for every
registry and without raising. -/
theorem claim_C5_parse_failure (raw : PyStr)
    (h1 : jsonLoads (cleanLLM raw) = none)
    (h2 : ∀ span, braceSpan raw = some span → jsonLoads span = none) :
    ∃ details, (details = dParseFail1 ∨ details = dParseFail2) ∧
      determineTool (.ok raw) =
        [(pys "tool", .str (pys "error_parsing_llm_response")),
         (pys "parameters", .obj [(pys "details", .str details),
                                  (pys "raw_content", .str raw)])] ∧
      ∀ reg, processRequest reg (.ok raw) = .ok (.str (msgTrouble details)) := by
  cases hb : braceSpan raw with
  | none =>
    refine ⟨dParseFail2, Or.inr rfl, ?_, ?_⟩
    · simp only [determineTool, h1, hb]
    · intro reg
      simp only [processRequest, processRequestE, determineTool, h1, hb]
      rfl
  | some span =>
    have hs := h2 span hb
    refine ⟨dParseFail1, Or.inl rfl, ?_, ?_⟩
    · simp only [determineTool, h1, hb, hs]
    · intro reg
      simp only [processRequest, processRequestE, determineTool, h1, hb, hs]
      rfl

/-- Witness for C5 at the claim's example reply, which contains no brace at
all: both stages fail and the fixed message is returned. -/
theorem claim_C5_witness :
    ∃ details, (details = dParseFail1 ∨ details = dParseFail2) ∧
      determineTool (.ok (pys "I think you should check the weather.")) =
        [(pys "tool", .str (pys "error_parsing_llm_response")),
         (pys "parameters", .obj [(pys "details", .str details),
            (pys "raw_content", .str (pys "I think you should check the weather."))])] ∧
      ∀ reg, processRequest reg (.ok (pys "I think you should check the weather.")) =
        .ok (.str (msgTrouble details)) :=
  claim_C5_parse_failure (pys "I think you should check the weather.") rfl
    (fun _ h => nomatch h)

/-- C8: for every registry and every interpreted decision whose tool name is
a non-empty string that is not an error sentinel, not `no_tool_needed`
(`hnotool` covers both exclusions and non-emptiness), and absent from the
registry, `process_request` returns the fixed unknown-tool message naming
that tool.  The registry — and with it every tool's behaviour — is
universally quantified and the result is a constant message, so no tool is
executed. -/
theorem claim_C8_unknown_tool (reg : List Tool) (llm : Except PyExc PyStr)
    (name : PyStr)
    (htool : lookupKey (pys "tool") (determineTool llm) = some (.str name))
    (hsent : toolIsSentinel (some (.str name)) = false)
    (hnotool : isNoTool (some (.str name)) = false)
    (habsent : findTool reg name = none) :
    processRequest reg llm = .ok (.str (msgUnknownTool (some (.str name)))) := by
  rw [processRequest_dispatch reg llm name htool hsent hnotool]
  simp only [habsent]

/-- Witness for C8: the claim's example, a reply naming the unregistered
tool "translator", against the concrete registry. -/
theorem claim_C8_witness :
    processRequest demoTools
      (.ok (pys "\x7b\"tool\": \"translator\", \"parameters\": \x7b\x7d\x7d")) =
      .ok (.str (msgUnknownTool (some (.str (pys "translator"))))) :=
  claim_C8_unknown_tool demoTools _ (pys "translator") rfl rfl rfl rfl

/-- C7: for every registry and every interpreted decision selecting a
registered tool with a parameter mapping whose keys do not bind the tool's
`execute` signature, `process_request` returns (without raising) the
parameter-mismatch message, which names both the expected parameter names
and the names actually supplied. -/
theorem claim_C7_param_mismatch (reg : List Tool) (llm : Except PyExc PyStr)
    (name : PyStr) (t : Tool)
    (htool : lookupKey (pys "tool") (determineTool llm) = some (.str name))
    (hsent : toolIsSentinel (some (.str name)) = false)
    (hnotool : isNoTool (some (.str name)) = false)
    (hfound : findTool reg name = some t)
    (hmis : keysMatch ((dispatchParams (determineTool llm)).map Prod.fst)
      t.paramNames = false) :
    processRequest reg llm =
      .ok (.str (msgBadParams t.name t.paramNames
        ((dispatchParams (determineTool llm)).map Prod.fst) teBadSignature)) ∧
    occursIn (pyListRepr t.paramNames)
      (msgBadParams t.name t.paramNames
        ((dispatchParams (determineTool llm)).map Prod.fst) teBadSignature) ∧
    occursIn (pyListRepr ((dispatchParams (determineTool llm)).map Prod.fst))
      (msgBadParams t.name t.paramNames
        ((dispatchParams (determineTool llm)).map Prod.fst) teBadSignature) := by
  refine ⟨?_, ?_, ?_⟩
  · rw [processRequest_dispatch reg llm name htool hsent hnotool]
    simp only [hfound, callTool, hmis, Bool.false_eq_true, if_false]
  · exact ⟨pys "Error using tool " ++ t.name ++ pys ": incorrect parameters. Expected: ",
      pys ". Got: " ++ pyListRepr ((dispatchParams (determineTool llm)).map Prod.fst) ++
        pys ". Details: " ++ teBadSignature,
      by simp only [msgBadParams, List.append_assoc]⟩
  · exact ⟨pys "Error using tool " ++ t.name ++ pys ": incorrect parameters. Expected: " ++
        pyListRepr t.paramNames ++ pys ". Got: ",
      pys ". Details: " ++ teBadSignature,
      by simp only [msgBadParams, List.append_assoc]⟩

/-- Witness for C7 at the claim's example: the calculator invoked with
`expr` instead of `expression`. -/
theorem claim_C7_witness :
    processRequest demoTools
      (.ok (pys "\x7b\"tool\": \"calculator\", \"parameters\": \x7b\"expr\": \"2+2\"\x7d\x7d")) =
      .ok (.str (msgBadParams (pys "calculator") [pys "expression"] [pys "expr"]
        teBadSignature)) ∧
    occursIn (pyListRepr [pys "expression"])
      (msgBadParams (pys "calculator") [pys "expression"] [pys "expr"] teBadSignature) ∧
    occursIn (pyListRepr [pys "expr"])
      (msgBadParams (pys "calculator") [pys "expression"] [pys "expr"] teBadSignature) :=
  claim_C7_param_mismatch demoTools _ (pys "calculator") calculatorTool
    rfl rfl rfl rfl rfl

/-- Counterexample to C1 as stated: with the claim's own example decision
(`calculator` on `"2+2"`), the tool's `execute` succeeds with the float
`4.0` (`⟨4, 1⟩` in the exact model) and `process_request` returns that value
raw — `return result` performs no coercion to text — so the returned value
is not a string. -/
theorem claim_C1_counterexample :
    processRequest demoTools
      (.ok (pys "\x7b\"tool\": \"calculator\", \"parameters\": \x7b\"expression\": \"2+2\"\x7d\x7d")) =
      .ok (PyValue.float ⟨4, 1⟩) ∧
    ∀ s : PyStr, PyValue.float ⟨4, 1⟩ ≠ PyValue.str s :=
  ⟨rfl, fun _ h => nomatch h⟩

/-- C1 as amended: whenever the selected tool's `execute` call succeeds,
`process_request` returns the tool's result unmodified and raw — without
coercing it to text; it is a string exactly when the tool returned one
(e.g. a float for the calculator). -/
theorem claim_C1_raw_result (reg : List Tool) (llm : Except PyExc PyStr)
    (name : PyStr) (t : Tool) (v : PyValue)
    (htool : lookupKey (pys "tool") (determineTool llm) = some (.str name))
    (hsent : toolIsSentinel (some (.str name)) = false)
    (hnotool : isNoTool (some (.str name)) = false)
    (hfound : findTool reg name = some t)
    (hcall : callTool t (dispatchParams (determineTool llm)) = .ok v) :
    processRequest reg llm = .ok v := by
  rw [processRequest_dispatch reg llm name htool hsent hnotool]
  simp only [hfound, hcall]

/-- Witness for the amended C1 at the claim's example: the calculator's
result for `"2+2"` is returned as the raw float `4.0`. -/
theorem claim_C1_witness :
    processRequest demoTools
      (.ok (pys "\x7b\"tool\": \"calculator\", \"parameters\": \x7b\"expression\": \"2+2\"\x7d\x7d")) =
      .ok (PyValue.float ⟨4, 1⟩) :=
  claim_C1_raw_result demoTools _ (pys "calculator") calculatorTool
    (PyValue.float ⟨4, 1⟩) rfl rfl rfl rfl rfl

/-- Counterexample to C4 as stated: the reply `{"tool": 5}` parses and
passes the structural validation (which only checks that the `tool` key is
present), so the decision's `tool` field is the JSON number `5` — not a
string. -/
theorem claim_C4_counterexample :
    lookupKey (pys "tool") (determineTool (.ok (pys "\x7b\"tool\": 5\x7d"))) =
      some (Json.num (pys "5")) ∧
    ∀ s : PyStr, Json.num (pys "5") ≠ Json.str s :=
  ⟨rfl, fun _ h => nomatch h⟩

/-- C4 as amended: for every LLM outcome the decision always carries a
`tool` key (its value is the verbatim JSON value from the reply and need not
be a string), and the parameter mapping the dispatcher passes on is the
decision's `parameters` value when that is a mapping and the empty mapping
when it is absent or malformed. -/
theorem claim_C4_decision_shape (llm : Except PyExc PyStr) :
    (∃ w, lookupKey (pys "tool") (determineTool llm) = some w) ∧
    (∀ kvs, lookupKey (pys "parameters") (determineTool llm) = some (.obj kvs) →
      dispatchParams (determineTool llm) = kvs) ∧
    ((∀ kvs, ¬ lookupKey (pys "parameters") (determineTool llm) = some (.obj kvs)) →
      dispatchParams (determineTool llm) = []) := by
  refine ⟨determineTool_has_tool llm, ?_, ?_⟩
  · intro kvs h
    unfold dispatchParams
    rw [h]
  · intro h
    unfold dispatchParams
    cases hp : lookupKey (pys "parameters") (determineTool llm) with
    | none => rfl
    | some v =>
      cases v with
      | obj kvs => exact absurd hp (h kvs)
      | null => rfl
      | bool b => rfl
      | num lex => rfl
      | str s => rfl
      | arr xs => rfl

/-- Counterexample to C2 as stated: on the claim's own example the embedded
object's `parameters` value nests braces, so the non-greedy brace-span
fallback extracts the unbalanced span from the first `{` to the *first* `}`;
that span fails to parse and interpretation yields the parse-error sentinel,
not the `weather_fetcher` decision. -/
theorem claim_C2_counterexample :
    determineTool
      (.ok (pys "Sure! \x7b\"tool\": \"weather_fetcher\", \"parameters\": \x7b\"city\": \"Paris\"\x7d\x7d Hope that helps.")) =
      [(pys "tool", Json.str (pys "error_parsing_llm_response")),
       (pys "parameters", Json.obj [(pys "details", Json.str dParseFail1),
          (pys "raw_content", Json.str (pys "Sure! \x7b\"tool\": \"weather_fetcher\", \"parameters\": \x7b\"city\": \"Paris\"\x7d\x7d Hope that helps."))])] ∧
    ¬ pys "error_parsing_llm_response" = pys "weather_fetcher" :=
  ⟨rfl, by decide⟩

/-- C2 as amended: the fallback searches the original untrimmed text for the
span from the first `{` to the first following `}`; whenever that minimal
span is itself a valid JSON object carrying a `tool` key — in particular for
prose-embedded decision objects without nested braces — interpretation
yields exactly that object as the decision. -/
theorem claim_C2_brace_fallback (raw span : PyStr) (kvs : List (PyStr × Json))
    (h1 : jsonLoads (cleanLLM raw) = none)
    (h2 : braceSpan raw = some span)
    (h3 : jsonLoads span = some (Json.obj kvs))
    (h4 : (lookupKey (pys "tool") kvs).isSome = true) :
    determineTool (.ok raw) = kvs := by
  simp only [determineTool, h1, h2, h3, validateDecision, h4, if_true]

/-- Witness for the amended C2: a prose-embedded flat decision object is
recovered by the fallback. -/
theorem claim_C2_witness :
    determineTool (.ok (pys "Sure! \x7b\"tool\": \"no_tool_needed\"\x7d Hope that helps.")) =
      [(pys "tool", Json.str (pys "no_tool_needed"))] :=
  claim_C2_brace_fallback
    (pys "Sure! \x7b\"tool\": \"no_tool_needed\"\x7d Hope that helps.")
    (pys "\x7b\"tool\": \"no_tool_needed\"\x7d")
    [(pys "tool", Json.str (pys "no_tool_needed"))] rfl rfl rfl rfl

/-- A cons whose head is not whitespace is already left-stripped. -/
theorem lstrip_cons_of_not (c : Char) (r : PyStr) (h : isPySpace c = false) :
    lstrip (c :: r) = c :: r := by
  simp [lstrip, List.dropWhile, h]

/-- Left-stripping distributes over an append whose left part does not strip
to nothing. -/
theorem lstrip_append_of_ne (a b : PyStr) (h : lstrip a ≠ []) :
    lstrip (a ++ b) = lstrip a ++ b := by
  induction a with
  | nil => exact absurd rfl h
  | cons c r ih =>
    by_cases hc : isPySpace c
    · have : lstrip (c :: r) = lstrip r := by simp [lstrip, List.dropWhile, hc]
      rw [this] at h
      calc lstrip ((c :: r) ++ b) = lstrip (r ++ b) := by
            simp [lstrip, List.dropWhile, hc]
        _ = lstrip r ++ b := ih h
        _ = lstrip (c :: r) ++ b := by rw [this]
    · have hc2 : isPySpace c = false := by simpa using hc
      rw [lstrip_cons_of_not c r hc2, List.cons_append,
        lstrip_cons_of_not c (r ++ b) hc2]

/-- Right-stripping removes a trailing whitespace character. -/
theorem rstrip_append_ws (x : PyStr) (c : Char) (h : isPySpace c = true) :
    rstrip (x ++ [c]) = rstrip x := by
  simp [rstrip, List.dropWhile, h]

/-- A trailing non-whitespace character is kept by right-stripping. -/
theorem rstrip_append_not_ws (x : PyStr) (c : Char) (h : isPySpace c = false) :
    rstrip (x ++ [c]) = x ++ [c] := by
  simp [rstrip, List.dropWhile, h]

/-- `dropWhile` is idempotent. -/
theorem dropWhile_idem (p : Char → Bool) (l : PyStr) :
    (l.dropWhile p).dropWhile p = l.dropWhile p := by
  induction l with
  | nil => rfl
  | cons c r ih =>
    by_cases hc : p c
    · simp [List.dropWhile, hc, ih]
    · simp [List.dropWhile, hc]

/-- The length of `dropWhile` never exceeds the input's. -/
theorem length_dropWhile_le (p : Char → Bool) (l : PyStr) :
    (l.dropWhile p).length ≤ l.length := by
  induction l with
  | nil => simp [List.dropWhile]
  | cons c r ih =>
    by_cases hc : p c
    · simp only [List.dropWhile, hc]
      exact Nat.le_trans ih (Nat.le_succ _)
    · simp only [List.dropWhile, hc]
      simp

/-- Right-stripping is idempotent. -/
theorem rstrip_idem (l : PyStr) : rstrip (rstrip l) = rstrip l := by
  unfold rstrip
  rw [List.reverse_reverse, dropWhile_idem]

/-- A fixed point of right-stripping has no whitespace last character. -/
theorem rstrip_fixed_no_trailing (s a : PyStr) (c : Char)
    (hfix : rstrip s = s) (hshape : s = a ++ [c]) : isPySpace c = false := by
  by_contra hc
  have hc2 : isPySpace c = true := by simpa using hc
  have : rstrip s = rstrip a := by rw [hshape]; exact rstrip_append_ws a c hc2
  rw [hfix, hshape] at this
  have hlen : (a ++ [c]).length = (rstrip a).length := by rw [this]
  have hle : (rstrip a).length ≤ a.length := by
    have h1 : (a.reverse.dropWhile isPySpace).length ≤ a.reverse.length :=
      length_dropWhile_le _ _
    simpa [rstrip] using h1
  simp [List.length_append] at hlen
  omega

/-- If `dropWhile` consumes everything, every element satisfied the
predicate. -/
theorem all_of_dropWhile_nil (p : Char → Bool) (l : PyStr)
    (h : l.dropWhile p = []) : ∀ x ∈ l, p x = true := by
  induction l with
  | nil => intro x hx; cases hx
  | cons c r ih =>
    by_cases hc : p c
    · intro x hx
      rcases List.mem_cons.mp hx with h1 | h1
      · subst h1; exact hc
      · exact ih (by simpa [List.dropWhile, hc] using h) x h1
    · simp [List.dropWhile, hc] at h

/-- JSON whitespace is Python whitespace. -/
theorem jsonWs_pySpace (c : Char) (h : isJsonWs c = true) : isPySpace c = true := by
  simp only [isJsonWs, Bool.or_eq_true, beq_iff_eq, decide_eq_true_eq] at h
  rcases h with ((h | h) | h) | h <;> subst h <;> rfl

/-- The head of a left-stripped string is not whitespace. -/
theorem lstrip_head_not_space (x : PyStr) (c : Char) (r : PyStr)
    (h : lstrip x = c :: r) : isPySpace c = false := by
  induction x with
  | nil => simp [lstrip] at h
  | cons a as ih =>
    by_cases ha : isPySpace a
    · exact ih (by simpa [lstrip, List.dropWhile, ha] using h)
    · have ha2 : isPySpace a = false := by simpa using ha
      rw [lstrip_cons_of_not a as ha2] at h
      injection h with h1 _
      rw [← h1]
      exact ha2

/-- Taking the left part's length plus `k` from an append takes `k` from the
right part. -/
theorem take_append_len (l m : PyStr) (k : Nat) :
    (l ++ m).take (l.length + k) = l ++ m.take k := by
  induction l with
  | nil => simp
  | cons c r ih => simpa [List.take, Nat.succ_add] using ih

/-- C6: wrapping a valid JSON decision-object reply in code fences
(```` ```json ```` before, ```` ``` ```` after, separated by newlines)
interprets to exactly the same ToolDecision as the unwrapped reply.  A
"valid JSON decision object" reply is one whose stripped text parses
strictly (`hparse`) and is brace-delimited (`hshape`) — both hold of the
text of any JSON object. -/
theorem claim_C6_fence_invariance (t mid : PyStr) (v : Json)
    (hshape : pstrip t = '{' :: (mid ++ ['}']))
    (hparse : jsonLoads (pstrip t) = some v) :
    determineTool (.ok (pys "```json\n" ++ (t ++ pys "\n```"))) =
      determineTool (.ok t) := by
  have hlne : lstrip t ≠ [] := by
    intro h0
    rw [pstrip, h0] at hshape
    exact absurd hshape (by simp [rstrip])
  obtain ⟨c0, r0, hlt⟩ : ∃ c r, lstrip t = c :: r := by
    cases hl : lstrip t with
    | nil => exact absurd hl hlne
    | cons c r => exact ⟨c, r, rfl⟩
  have hhead : isPySpace c0 = false := lstrip_head_not_space t c0 r0 hlt
  -- the unwrapped reply cleans to its stripped text
  have hct : cleanLLM t = pstrip t := by
    unfold cleanLLM
    rw [hshape]
    have e1 : (pys "```json").isPrefixOf ('{' :: (mid ++ ['}'])) = false := rfl
    have e2 : (pys "```").isPrefixOf ('{' :: (mid ++ ['}'])) = false := rfl
    have e3 : (pys "```").isSuffixOf ('{' :: (mid ++ ['}'])) = false := by
      unfold List.isSuffixOf
      have hrev : ('{' :: (mid ++ ['}'])).reverse = '}' :: ('{' :: mid).reverse := by
        rw [show ('{' :: (mid ++ ['}'])) = ('{' :: mid) ++ ['}'] by simp]
        rw [List.reverse_append]
        rfl
      rw [hrev]
      rfl
    simp only [e1, e2, e3, Bool.false_eq_true, if_false]
  -- the fenced reply cleans to the same stripped text
  have hF0 : pstrip (pys "```json\n" ++ (t ++ pys "\n```")) =
      pys "```json\n" ++ (t ++ pys "\n```") := by
    have h1 : lstrip (pys "```json\n" ++ (t ++ pys "\n```")) =
        pys "```json\n" ++ (t ++ pys "\n```") :=
      lstrip_cons_of_not '`' _ rfl
    have h2 : pys "```json\n" ++ (t ++ pys "\n```") =
        (pys "```json\n" ++ (t ++ pys "\n``")) ++ ['`'] := by
      rw [show pys "\n```" = pys "\n``" ++ ['`'] from rfl]
      simp [List.append_assoc]
    unfold pstrip
    rw [h1, h2, rstrip_append_not_ws (pys "```json\n" ++ (t ++ pys "\n``")) '`' rfl]
  have hps1 : pstrip ('\n' :: (t ++ pys "\n```")) = lstrip t ++ pys "\n```" := by
    unfold pstrip
    have ha : lstrip ('\n' :: (t ++ pys "\n```")) = lstrip (t ++ pys "\n```") := rfl
    rw [ha, lstrip_append_of_ne t _ hlne]
    have hb : lstrip t ++ pys "\n```" = (lstrip t ++ pys "\n``") ++ ['`'] := by
      rw [show pys "\n```" = pys "\n``" ++ ['`'] from rfl]
      simp [List.append_assoc]
    rw [hb, rstrip_append_not_ws (lstrip t ++ pys "\n``") '`' rfl]
  have hsuffF : (pys "```").isSuffixOf (lstrip t ++ pys "\n```") = true := by
    unfold List.isSuffixOf
    rw [List.reverse_append]
    rfl
  have hdr : dropRightN (lstrip t ++ pys "\n```") 3 = lstrip t ++ ['\n'] := by
    unfold dropRightN
    rw [List.length_append]
    rw [show (lstrip t).length + (pys "\n```").length - 3 = (lstrip t).length + 1 by
      simp [pys]]
    rw [take_append_len]
    rfl
  have hps2 : pstrip (lstrip t ++ ['\n']) = pstrip t := by
    unfold pstrip
    have hl2 : lstrip (lstrip t ++ ['\n']) = lstrip t ++ ['\n'] := by
      rw [hlt]
      exact lstrip_cons_of_not c0 (r0 ++ ['\n']) hhead
    rw [hl2, rstrip_append_ws (lstrip t) '\n' rfl]
  have hcf : cleanLLM (pys "```json\n" ++ (t ++ pys "\n```")) = pstrip t := by
    have e1 : (pys "```json").isPrefixOf (pys "```json\n" ++ (t ++ pys "\n```")) = true := rfl
    have e4 : (pys "```json\n" ++ (t ++ pys "\n```")).drop 7 = '\n' :: (t ++ pys "\n```") := rfl
    unfold cleanLLM
    simp only [hF0, e1, if_true, e4, hps1, hsuffF, hdr, hps2]
  simp only [determineTool, hcf, hct, hparse]

/-- Witness for C6: the claim's example decision object, fenced and
unfenced, yields the same decision. -/
theorem claim_C6_witness :
    determineTool (.ok (pys "```json\n" ++
        (pys "\x7b\"tool\":\"no_tool_needed\",\"parameters\":\x7b\x7d\x7d" ++ pys "\n```"))) =
      determineTool (.ok (pys "\x7b\"tool\":\"no_tool_needed\",\"parameters\":\x7b\x7d\x7d")) :=
  claim_C6_fence_invariance
    (pys "\x7b\"tool\":\"no_tool_needed\",\"parameters\":\x7b\x7d\x7d")
    (pys "\"tool\":\"no_tool_needed\",\"parameters\":\x7b\x7d")
    (Json.obj [(pys "tool", Json.str (pys "no_tool_needed")),
               (pys "parameters", Json.obj [])])
    rfl rfl

/-- `splitSlash` never returns the empty list. -/
theorem splitSlash_ne_nil (x : PyStr) : splitSlash x ≠ [] := by
  cases x with
  | nil => simp [splitSlash]
  | cons c r =>
    by_cases hc : c = '/'
    · simp [splitSlash, hc]
    · simp only [splitSlash, hc, if_false]
      cases splitSlash r with
      | nil => simp
      | cons h t => simp

/-- Splitting distributes over an append at a separator. -/
theorem split_append_slash (a b : PyStr) :
    splitSlash (a ++ '/' :: b) = splitSlash a ++ splitSlash b := by
  induction a with
  | nil => simp [splitSlash]
  | cons c r ih =>
    by_cases hc : c = '/'
    · simp [splitSlash, hc, ih]
    · have e1 : splitSlash (c :: (r ++ '/' :: b)) =
          (match splitSlash (r ++ '/' :: b) with
           | h :: t => (c :: h) :: t
           | [] => [[c]]) := by
        simp only [splitSlash, hc, if_false]
      have e2 : splitSlash (c :: r) =
          (match splitSlash r with
           | h :: t => (c :: h) :: t
           | [] => [[c]]) := by
        simp only [splitSlash, hc, if_false]
      show splitSlash (c :: (r ++ '/' :: b)) = splitSlash (c :: r) ++ splitSlash b
      rw [e1, e2, ih]
      cases hs : splitSlash r with
      | nil => exact absurd hs (splitSlash_ne_nil r)
      | cons h t => rfl

/-- A slash-free string splits into itself. -/
theorem splitSlash_slash_free (c : PyStr) (h : ∀ x ∈ c, ¬ x = '/') :
    splitSlash c = [c] := by
  induction c with
  | nil => rfl
  | cons d r ih =>
    have hd : ¬ d = '/' := h d (List.mem_cons_self d r)
    have hr := ih (fun x hx => h x (List.mem_cons_of_mem d hx))
    simp [splitSlash, hd, hr]

/-- Splitting a slash-joined list of slash-free nonempty components
recovers the components. -/
theorem joinSep_split (comps : List PyStr)
    (h : ∀ c ∈ comps, ∀ x ∈ c, ¬ x = '/') (hne : comps ≠ []) :
    splitSlash (joinSep (pys "/") comps) = comps := by
  induction comps with
  | nil => exact absurd rfl hne
  | cons c rest ih =>
    cases rest with
    | nil =>
      exact splitSlash_slash_free c (h c (by simp))
    | cons d ds =>
      have hc := h c (by simp)
      have hrest : ∀ c2 ∈ d :: ds, ∀ x ∈ c2, ¬ x = '/' := by
        intro c2 hc2 x hx
        exact h c2 (List.mem_cons_of_mem c hc2) x hx
      have : joinSep (pys "/") (c :: d :: ds) =
          c ++ '/' :: joinSep (pys "/") (d :: ds) := by
        simp [joinSep, pys, List.append_assoc]
      rw [this, split_append_slash, splitSlash_slash_free c hc,
        ih hrest (by simp)]
      simp

/-- The first piece of a split is a prefix of the input. -/
theorem splitSlash_head_pref (ys h : PyStr) (t : List PyStr)
    (heq : splitSlash ys = h :: t) : h.isPrefixOf ys = true := by
  induction ys generalizing h t with
  | nil =>
    simp [splitSlash] at heq
    rw [heq.1]
    rfl
  | cons z zs ih =>
    by_cases hz : z = '/'
    · simp [splitSlash, hz] at heq
      rw [heq.1]
      simp [List.isPrefixOf]
    · simp only [splitSlash, hz, if_false] at heq
      cases hs : splitSlash zs with
      | nil => exact absurd hs (splitSlash_ne_nil zs)
      | cons h2 t2 =>
        rw [hs] at heq
        injection heq with he1 he2
        rw [← he1]
        have := ih h2 t2 hs
        simp [List.isPrefixOf, this]

/-- A prefix occurs as a substring. -/
theorem containsSeq_of_pref (c x : PyStr) (h : c.isPrefixOf x = true) :
    containsSeq c x = true := by
  cases x with
  | nil =>
    cases c with
    | nil => rfl
    | cons a r => simp [List.isPrefixOf] at h
  | cons y ys => simp [containsSeq, h]

/-- Every piece of a split occurs as a substring of the input. -/
theorem splitSlash_mem_contains (x : PyStr) (c : PyStr)
    (h : c ∈ splitSlash x) : containsSeq c x = true := by
  induction x generalizing c with
  | nil =>
    simp [splitSlash] at h
    rw [h]
    rfl
  | cons y ys ih =>
    by_cases hy : y = '/'
    · simp only [splitSlash, hy, if_true] at h
      rcases List.mem_cons.mp h with h1 | h1
      · rw [h1]; rfl
      · have := ih c h1
        simp [containsSeq, this]
    · simp only [splitSlash, hy, if_false] at h
      cases hs : splitSlash ys with
      | nil => exact absurd hs (splitSlash_ne_nil ys)
      | cons h2 t2 =>
        rw [hs] at h
        rcases List.mem_cons.mp h with h1 | h1
        · subst h1
          have hp := splitSlash_head_pref ys h2 t2 hs
          apply containsSeq_of_pref
          simp [List.isPrefixOf, hp]
        · have := ih c (by rw [hs]; exact List.mem_cons_of_mem h2 h1)
          simp [containsSeq, this]

/-- Joining across an appended nonempty tail inserts a separator. -/
theorem joinSep_append_cons (sep : PyStr) (as : List PyStr) (b : PyStr)
    (bs : List PyStr) (hne : as ≠ []) :
    joinSep sep (as ++ b :: bs) = joinSep sep as ++ sep ++ joinSep sep (b :: bs) := by
  induction as with
  | nil => exact absurd rfl hne
  | cons a rest ih =>
    cases rest with
    | nil => simp [joinSep]
    | cons a2 rest2 =>
      have h2 : joinSep sep (a2 :: (rest2 ++ b :: bs)) =
          joinSep sep (a2 :: rest2) ++ sep ++ joinSep sep (b :: bs) := ih (by simp)
      calc joinSep sep ((a :: a2 :: rest2) ++ b :: bs)
          = a ++ sep ++ joinSep sep (a2 :: (rest2 ++ b :: bs)) := rfl
        _ = a ++ sep ++ (joinSep sep (a2 :: rest2) ++ sep ++ joinSep sep (b :: bs)) := by
            rw [h2]
        _ = joinSep sep (a :: a2 :: rest2) ++ sep ++ joinSep sep (b :: bs) := by
            show _ = (a ++ sep ++ joinSep sep (a2 :: rest2)) ++ sep ++ _
            simp [List.append_assoc]

/-- A list is a Boolean prefix of itself extended. -/
theorem isPrefixOf_self_append (x y : PyStr) : x.isPrefixOf (x ++ y) = true := by
  induction x with
  | nil => simp [List.isPrefixOf]
  | cons c r ih => simp [List.isPrefixOf, ih]

/-- Ordinary components (nonempty, neither `.` nor `..`) are appended
verbatim by the normalization fold. -/
theorem fold_norm_good (l : List PyStr) :
    ∀ acc, (∀ c ∈ l, ¬ c = [] ∧ ¬ c = pys "." ∧ ¬ c = pys "..") →
      List.foldl (normStep 1) acc l = acc ++ l := by
  induction l with
  | nil => intro acc _; simp
  | cons c rest ih =>
    intro acc h
    obtain ⟨h1, h2, h3⟩ := h c (by simp)
    have hstep : normStep 1 acc c = acc ++ [c] := by
      unfold normStep
      rw [if_neg (by simp [h1, h2]), if_pos (Or.inl h3)]
    have : List.foldl (normStep 1) acc (c :: rest) =
        List.foldl (normStep 1) (acc ++ [c]) rest := by
      simp [List.foldl, hstep]
    rw [this, ih (acc ++ [c]) (fun x hx => h x (List.mem_cons_of_mem c hx))]
    simp

/-- With no `..` component in sight, the normalization fold only ever
appends: the result extends the accumulator. -/
theorem fold_norm_no_ddots (l : List PyStr) :
    ∀ acc, (∀ c ∈ l, ¬ c = pys "..") →
      ∃ kept, List.foldl (normStep 1) acc l = acc ++ kept := by
  induction l with
  | nil => intro acc _; exact ⟨[], by simp⟩
  | cons c rest ih =>
    intro acc h
    by_cases hjunk : c = [] ∨ c = pys "."
    · have hstep : normStep 1 acc c = acc := by
        unfold normStep
        rw [if_pos hjunk]
      obtain ⟨kept, hk⟩ := ih acc (fun x hx => h x (List.mem_cons_of_mem c hx))
      refine ⟨kept, ?_⟩
      have : List.foldl (normStep 1) acc (c :: rest) =
          List.foldl (normStep 1) acc rest := by
        simp [List.foldl, hstep]
      rw [this, hk]
    · have hdd := h c (by simp)
      have hstep : normStep 1 acc c = acc ++ [c] := by
        unfold normStep
        rw [if_neg hjunk, if_pos (Or.inl hdd)]
      obtain ⟨kept, hk⟩ := ih (acc ++ [c]) (fun x hx => h x (List.mem_cons_of_mem c hx))
      refine ⟨c :: kept, ?_⟩
      have : List.foldl (normStep 1) acc (c :: rest) =
          List.foldl (normStep 1) (acc ++ [c]) rest := by
        simp [List.foldl, hstep]
      rw [this, hk]
      simp

/-- The first normalization step on an empty component skips it. -/
theorem normStep_junk_nil (acc : List PyStr) : normStep 1 acc [] = acc := by
  unfold normStep
  rw [if_pos (Or.inl rfl)]

/-- For a normalized absolute base and a relative path containing no `..`
substring, the resolved absolute path lies under the base: `..`-free
relative joins cannot escape the working directory. -/
theorem resolved_under_base (cwd fp : PyStr) (hcwd : NormAbsCwd cwd)
    (hrel : isAbsP fp = false) (hnodd : containsSeq (pys "..") fp = false) :
    underBase cwd (abspath cwd (pjoin cwd fp)) := by
  obtain ⟨comps, hgood, hcwdEq, hlast⟩ := hcwd
  have hfp2 : ∀ c ∈ splitSlash fp, ¬ c = pys ".." := by
    intro c hc hcdd
    rw [hcdd] at hc
    exact absurd (splitSlash_mem_contains fp (pys "..") hc) (by rw [hnodd]; simp)
  cases comps with
  | nil =>
    have hc1 : cwd = ['/'] := by rw [hcwdEq]; rfl
    have hP : pjoin cwd fp = '/' :: fp := by
      unfold pjoin
      rw [hrel, hc1]
      simp
    have habsP : isAbsP ('/' :: fp) = true := by simp [isAbsP, pys, List.isPrefixOf]
    have hslash2 : (pys "//").isPrefixOf ('/' :: fp) = false := by
      have : (pys "//").isPrefixOf ('/' :: fp) = (pys "/").isPrefixOf fp := by
        simp [pys, List.isPrefixOf]
      rw [this]
      exact hrel
    obtain ⟨kept, hkept⟩ := fold_norm_no_ddots (splitSlash fp) [] hfp2
    have hsplit : splitSlash ('/' :: fp) = [] :: splitSlash fp := by
      simp [splitSlash]
    have hs1 : (pys "/").isPrefixOf ('/' :: fp) = true := by
      simp [pys, List.isPrefixOf]
    have hres : abspath cwd (pjoin cwd fp) = '/' :: joinSep (pys "/") kept := by
      rw [hP]
      unfold abspath
      rw [if_pos habsP]
      unfold normpath
      rw [if_neg (by simp)]
      simp only [hslash2, hs1, Bool.false_eq_true, false_and, eq_self_iff_true,
        if_false, if_true, hsplit]
      rw [show List.foldl (normStep 1) [] ([] :: splitSlash fp) =
          List.foldl (normStep 1) [] (splitSlash fp) by
        simp [List.foldl, normStep_junk_nil]]
      rw [hkept]
      simp only [List.nil_append]
      rw [if_neg (by simp)]
      rfl
    rw [hres, hc1]
    right
    have : withSlash ['/'] = ['/'] := by unfold withSlash; rfl
    rw [this]
    simp [List.isPrefixOf]
  | cons c cs =>
    have hlastne : ¬ cwd.getLast? = some '/' := by
      rcases hlast with h | h
      · exact absurd h (by simp)
      · exact h
    have hcne : cwd ≠ [] := by rw [hcwdEq]; simp
    have hP : pjoin cwd fp = cwd ++ '/' :: fp := by
      unfold pjoin
      rw [if_neg (by simp [hrel]), if_neg (by rintro (h | h); exact hcne h; exact hlastne h)]
    obtain ⟨d, ds, hcshape⟩ : ∃ d ds, c = d :: ds := by
      cases hcc : c with
      | nil => exact absurd hcc ((hgood c (by simp)).1)
      | cons d ds => exact ⟨d, ds, rfl⟩
    have hdns : ¬ d = '/' := by
      have := (hgood c (by simp)).2.2.2
      exact this d (by rw [hcshape]; simp)
    obtain ⟨w, hjw⟩ : ∃ w, joinSep (pys "/") (c :: cs) = d :: w := by
      cases cs with
      | nil => exact ⟨ds, by rw [hcshape]; rfl⟩
      | cons c2 cs2 =>
        refine ⟨ds ++ pys "/" ++ joinSep (pys "/") (c2 :: cs2), ?_⟩
        rw [hcshape]
        simp [joinSep, List.append_assoc]
    have hPform : cwd ++ '/' :: fp = '/' :: (joinSep (pys "/") (c :: cs) ++ '/' :: fp) := by
      rw [hcwdEq]
      rfl
    have habsP : isAbsP (cwd ++ '/' :: fp) = true := by
      rw [hPform]
      simp [isAbsP, pys, List.isPrefixOf]
    have hslash2 : (pys "//").isPrefixOf (cwd ++ '/' :: fp) = false := by
      rw [hPform, hjw]
      have hdb : (('/' : Char) == d) = false := beq_eq_false_iff_ne.mpr (Ne.symm hdns)
      simp [pys, List.isPrefixOf, hdb]
    have hsplit : splitSlash (cwd ++ '/' :: fp) =
        ([] :: (c :: cs)) ++ splitSlash fp := by
      rw [hPform]
      have h1 : splitSlash ('/' :: (joinSep (pys "/") (c :: cs) ++ '/' :: fp)) =
          [] :: splitSlash (joinSep (pys "/") (c :: cs) ++ '/' :: fp) := by
        simp [splitSlash]
      rw [h1, split_append_slash,
        joinSep_split (c :: cs) (fun c2 hc2 => (hgood c2 hc2).2.2.2) (by simp)]
      rfl
    have hgood3 : ∀ c2 ∈ c :: cs, ¬ c2 = [] ∧ ¬ c2 = pys "." ∧ ¬ c2 = pys ".." := by
      intro c2 hc2
      obtain ⟨a1, a2, a3, _⟩ := hgood c2 hc2
      exact ⟨a1, a2, a3⟩
    obtain ⟨kept, hkept⟩ := fold_norm_no_ddots (splitSlash fp) (c :: cs) hfp2
    have hs1 : (pys "/").isPrefixOf (cwd ++ '/' :: fp) = true := by
      rw [hPform]
      simp [pys, List.isPrefixOf]
    have hres : abspath cwd (pjoin cwd fp) =
        '/' :: joinSep (pys "/") ((c :: cs) ++ kept) := by
      rw [hP]
      unfold abspath
      rw [if_pos habsP]
      unfold normpath
      rw [if_neg (by intro h0; rw [h0] at habsP; exact absurd habsP (by simp [isAbsP, List.isPrefixOf]))]
      simp only [hslash2, hs1, Bool.false_eq_true, false_and, eq_self_iff_true,
        if_false, if_true, hsplit]
      rw [List.foldl_append]
      rw [show List.foldl (normStep 1) [] ([] :: (c :: cs)) =
          List.foldl (normStep 1) [] (c :: cs) by
        simp [List.foldl, normStep_junk_nil]]
      rw [fold_norm_good (c :: cs) [] hgood3]
      simp only [List.nil_append]
      rw [hkept]
      rw [if_neg (by simp)]
      rfl
    rw [hres]
    cases kept with
    | nil =>
      left
      rw [hcwdEq]
      simp
    | cons k ks =>
      right
      have hws : withSlash cwd = cwd ++ ['/'] := by
        unfold withSlash
        rw [if_neg hlastne]
      have hform : '/' :: joinSep (pys "/") ((c :: cs) ++ k :: ks) =
          (cwd ++ ['/']) ++ joinSep (pys "/") (k :: ks) := by
        rw [joinSep_append_cons (pys "/") (c :: cs) k ks (by simp), hcwdEq]
        simp [pys, List.append_assoc]
      rw [hws, hform]
      exact isPrefixOf_self_append _ _

/-- C10: for a normalized absolute base directory (the process working
directory), every `file_path` containing `..`, every absolute `file_path`,
and every `file_path` whose resolved absolute form does not lie under the
base produces one of the three sandbox error strings — uniformly for every
file-system environment, so no file content is ever consulted, let alone
returned, for such paths. -/
theorem claim_C10_sandbox (cwd fp : PyStr) (hcwd : NormAbsCwd cwd)
    (hbad : containsSeq (pys "..") fp = true ∨ isAbsP fp = true ∨
      ¬ underBase cwd (abspath cwd (pjoin cwd fp))) :
    ∃ msg,
      (msg = pys "Error: Access denied. Path is outside allowed directory." ∨
       msg = pys "Error: Path should not contain \x27..\x27." ∨
       msg = pys "Error: Absolute file paths are not allowed.") ∧
      ∀ env : FREnv, executeFR env cwd fp = msg := by
  have hfpne : fp ≠ [] := by
    intro h0
    subst h0
    rcases hbad with h | h | h
    · exact absurd h (by decide)
    · exact absurd h (by decide)
    · exact h (resolved_under_base cwd [] ⟨_, hcwd.choose_spec.1, hcwd.choose_spec.2.1,
        hcwd.choose_spec.2.2⟩ (by decide) (by decide))
  by_cases hpre : (abspath cwd cwd).isPrefixOf (abspath cwd (pjoin cwd fp)) = true
  · by_cases hdd : containsSeq (pys "..") fp = true
    · refine ⟨_, Or.inr (Or.inl rfl), fun env => ?_⟩
      unfold executeFR
      rw [if_neg hfpne]
      simp only [hpre, hdd, not_true, Bool.false_eq_true, if_false, if_true]
    · by_cases habs : isAbsP fp = true
      · refine ⟨_, Or.inr (Or.inr rfl), fun env => ?_⟩
        unfold executeFR
        rw [if_neg hfpne]
        simp only [hpre, hdd, habs, not_true, Bool.false_eq_true, if_false, if_true]
      · exfalso
        have hdd2 : containsSeq (pys "..") fp = false := by
          cases h : containsSeq (pys "..") fp
          · rfl
          · exact absurd h hdd
        have habs2 : isAbsP fp = false := by
          cases h : isAbsP fp
          · rfl
          · exact absurd h habs
        rcases hbad with h | h | h
        · exact hdd h
        · exact habs h
        · exact h (resolved_under_base cwd fp hcwd habs2 hdd2)
  · refine ⟨_, Or.inl rfl, fun env => ?_⟩
    unfold executeFR
    rw [if_neg hfpne]
    simp only [hpre, Bool.false_eq_true, not_false_eq_true, if_true]

/-- Witness for C10: from the base `/home/user`, the traversal attempt
`../secret` is rejected with a sandbox error for every file system. -/
theorem claim_C10_witness :
    ∃ msg,
      (msg = pys "Error: Access denied. Path is outside allowed directory." ∨
       msg = pys "Error: Path should not contain \x27..\x27." ∨
       msg = pys "Error: Absolute file paths are not allowed.") ∧
      ∀ env : FREnv, executeFR env (pys "/home/user") (pys "../secret") = msg :=
  claim_C10_sandbox (pys "/home/user") (pys "../secret")
    ⟨[pys "home", pys "user"], by decide, rfl, Or.inr (by decide)⟩
    (Or.inl (by decide))

/-- Witness for the amended C4 at a concrete reply: the decision's
`parameters` mapping is passed through by the dispatcher's coercion. -/
theorem claim_C4_witness :
    dispatchParams (determineTool
      (.ok (pys "\x7b\"tool\": \"t\", \"parameters\": \x7b\"a\": 1\x7d\x7d"))) =
      [(pys "a", Json.num (pys "1"))] :=
  (claim_C4_decision_shape
    (.ok (pys "\x7b\"tool\": \"t\", \"parameters\": \x7b\"a\": 1\x7d\x7d"))).2.1
    [(pys "a", Json.num (pys "1"))] rfl

/-- A digit differs from any non-digit character. -/
theorem ne_of_isDigit_false (c x : Char) (h : c.isDigit = true)
    (hx : x.isDigit = false) : ¬ c = x := by
  intro e
  rw [e, hx] at h
  exact Bool.false_ne_true h

/-- A non-whitespace head survives `skipWs`. -/
theorem skipWs_cons_not (c : Char) (X : PyStr) (h : isJsonWs c = false) :
    skipWs (c :: X) = c :: X := by
  simp [skipWs, List.dropWhile, h]

/-- `skipWs` removes a whitespace prefix. -/
theorem skipWs_append_ws (w X : PyStr) (hw : ∀ c ∈ w, isJsonWs c = true) :
    skipWs (w ++ X) = skipWs X := by
  induction w with
  | nil => rfl
  | cons c r ih =>
    simp only [skipWs, List.cons_append, List.dropWhile, hw c (by simp)]
    exact ih (fun d hd => hw d (by simp [hd]))

/-- A digit is not JSON whitespace. -/
theorem isJsonWs_digit_false (c : Char) (h : c.isDigit = true) :
    isJsonWs c = false := by
  simp only [isJsonWs, Bool.or_eq_false_iff, decide_eq_false_iff_not]
  exact ⟨⟨⟨ne_of_isDigit_false c ' ' h (by decide),
    ne_of_isDigit_false c '\t' h (by decide)⟩,
    ne_of_isDigit_false c '\n' h (by decide)⟩,
    ne_of_isDigit_false c '\r' h (by decide)⟩

/-- `spanDigits` splits an all-digit part from a rest whose head is not a
digit. -/
theorem spanDigits_append (a b : PyStr) (ha : ∀ c ∈ a, c.isDigit = true)
    (hb : ∀ c, b.head? = some c → c.isDigit = false) :
    spanDigits (a ++ b) = (a, b) := by
  induction a with
  | nil =>
    cases b with
    | nil => rfl
    | cons c r =>
      have hc := hb c rfl
      simp [spanDigits, List.takeWhile, List.dropWhile, hc]
  | cons c r ih =>
    have hc : c.isDigit = true := ha c (by simp)
    have ihr := ih (fun d hd => ha d (by simp [hd]))
    simp only [spanDigits] at ihr ⊢
    simp only [List.cons_append, List.takeWhile_cons, List.dropWhile_cons, hc,
      if_true]
    have h1 : List.takeWhile Char.isDigit (r ++ b) = r := congrArg Prod.fst ihr
    have h2 : List.dropWhile Char.isDigit (r ++ b) = b := congrArg Prod.snd ihr
    rw [h1, h2]

/-- The value of an emitted hexadecimal digit. -/
theorem hexVal_hexDigit (n : Nat) (h : n < 16) :
    hexVal (hexDigit n) = some n := by
  interval_cases n <;> decide

/-- Inserting a fresh key appends the pair. -/
theorem insertPy_not_mem (acc : List (PyStr × Json)) (k : PyStr) (v : Json)
    (h : ∀ kv ∈ acc, ¬ kv.1 = k) : insertPy acc k v = acc ++ [(k, v)] := by
  unfold insertPy
  rw [if_neg]
  simp only [List.any_eq_true, decide_eq_true_eq, not_exists]
  intro kv
  intro hmem
  exact h kv hmem.1 hmem.2

/-- A looked-up value is a member's value with the looked-up key. -/
theorem lookupKey_mem (k : PyStr) (l : List (PyStr × Json)) (w : Json)
    (h : lookupKey k l = some w) : (k, w) ∈ l := by
  induction l with
  | nil => exact absurd h (by simp [lookupKey])
  | cons kv rest ih =>
    obtain ⟨k2, v2⟩ := kv
    by_cases hk : k2 = k
    · rw [lookupKey, if_pos hk] at h
      cases h
      subst hk
      exact List.mem_cons_self _ _
    · rw [lookupKey, if_neg hk] at h
      exact List.mem_cons_of_mem _ (ih h)

/-- Under duplicate-free keys, a member is found by looking up its key. -/
theorem lookupKey_self (k : PyStr) (v : Json) (l : List (PyStr × Json))
    (hnd : (l.map Prod.fst).Nodup) (hmem : (k, v) ∈ l) :
    lookupKey k l = some v := by
  induction l with
  | nil => exact absurd hmem (by simp)
  | cons kv rest ih =>
    obtain ⟨k2, v2⟩ := kv
    simp only [List.map_cons, List.nodup_cons] at hnd
    rcases List.mem_cons.mp hmem with he | hr
    · cases he
      rw [lookupKey, if_pos rfl]
    · have hk2 : ¬ k2 = k := by
        intro e
        subst e
        exact hnd.1 (List.mem_map.mpr ⟨(k2, v), hr, rfl⟩)
      rw [lookupKey, if_neg hk2]
      exact ih hnd.2 hr


/-- Decoding inverts escaping: the string decoder run on an escaped string
body followed by the closing quote recovers the original characters. -/
theorem parseStrBody_esc (s : PyStr) : ∀ (tail : PyStr) (fuel : Nat),
    ((s.map escJ).flatten).length + 1 ≤ fuel →
    parseStrBody fuel ((s.map escJ).flatten ++ '"' :: tail) = some (s, tail) := by
  induction s with
  | nil =>
    intro tail fuel hf
    obtain ⟨f, rfl⟩ : ∃ f, fuel = f + 1 := ⟨fuel - 1, by omega⟩
    simp [parseStrBody]
  | cons c s ih =>
    intro tail fuel hf
    simp only [List.map_cons, List.flatten_cons, List.length_append] at hf ⊢
    by_cases q1 : c = '"'
    · subst q1
      have he : escJ '"' = ['\\', '"'] := rfl
      rw [he] at hf ⊢
      simp only [List.length_cons, List.length_nil] at hf
      obtain ⟨f, rfl⟩ : ∃ f, fuel = f + 1 := ⟨fuel - 1, by omega⟩
      simp [parseStrBody, List.append_assoc, ih tail f (by omega)]
    · by_cases q2 : c = '\\'
      · subst q2
        have he : escJ '\\' = ['\\', '\\'] := rfl
        rw [he] at hf ⊢
        simp only [List.length_cons, List.length_nil] at hf
        obtain ⟨f, rfl⟩ : ∃ f, fuel = f + 1 := ⟨fuel - 1, by omega⟩
        simp [parseStrBody, List.append_assoc, ih tail f (by omega)]
      · by_cases q3 : c = '\n'
        · subst q3
          have he : escJ '\n' = ['\\', 'n'] := rfl
          rw [he] at hf ⊢
          simp only [List.length_cons, List.length_nil] at hf
          obtain ⟨f, rfl⟩ : ∃ f, fuel = f + 1 := ⟨fuel - 1, by omega⟩
          simp [parseStrBody, List.append_assoc, ih tail f (by omega)]
        · by_cases q4 : c = '\t'
          · subst q4
            have he : escJ '\t' = ['\\', 't'] := rfl
            rw [he] at hf ⊢
            simp only [List.length_cons, List.length_nil] at hf
            obtain ⟨f, rfl⟩ : ∃ f, fuel = f + 1 := ⟨fuel - 1, by omega⟩
            simp [parseStrBody, List.append_assoc, ih tail f (by omega)]
          · by_cases q5 : c = '\r'
            · subst q5
              have he : escJ '\r' = ['\\', 'r'] := rfl
              rw [he] at hf ⊢
              simp only [List.length_cons, List.length_nil] at hf
              obtain ⟨f, rfl⟩ : ∃ f, fuel = f + 1 := ⟨fuel - 1, by omega⟩
              simp [parseStrBody, List.append_assoc, ih tail f (by omega)]
            · by_cases q6 : c = '\x08'
              · subst q6
                have he : escJ '\x08' = ['\\', 'b'] := rfl
                rw [he] at hf ⊢
                simp only [List.length_cons, List.length_nil] at hf
                obtain ⟨f, rfl⟩ : ∃ f, fuel = f + 1 := ⟨fuel - 1, by omega⟩
                simp [parseStrBody, List.append_assoc, ih tail f (by omega)]
              · by_cases q7 : c = '\x0c'
                · subst q7
                  have he : escJ '\x0c' = ['\\', 'f'] := rfl
                  rw [he] at hf ⊢
                  simp only [List.length_cons, List.length_nil] at hf
                  obtain ⟨f, rfl⟩ : ∃ f, fuel = f + 1 := ⟨fuel - 1, by omega⟩
                  simp [parseStrBody, List.append_assoc, ih tail f (by omega)]
                · by_cases q8 : c.toNat < 0x20
                  · have he : escJ c =
                        ['\\', 'u', '0', '0', hexDigit (c.toNat / 16),
                         hexDigit (c.toNat % 16)] := by
                      simp only [escJ, if_neg q1, if_neg q2, if_neg q3, if_neg q4,
                        if_neg q5, if_neg q6, if_neg q7, if_pos q8]
                    rw [he] at hf ⊢
                    simp only [List.length_cons, List.length_nil] at hf
                    obtain ⟨f, rfl⟩ : ∃ f, fuel = f + 1 := ⟨fuel - 1, by omega⟩
                    have h16a : hexVal (hexDigit (c.toNat / 16)) = some (c.toNat / 16) :=
                      hexVal_hexDigit _ (by omega)
                    have h16b : hexVal (hexDigit (c.toNat % 16)) = some (c.toNat % 16) :=
                      hexVal_hexDigit _ (by omega)
                    have harith : ((0 * 16 + 0) * 16 + c.toNat / 16) * 16 + c.toNat % 16
                        = c.toNat := by omega
                    simp only [List.cons_append, List.append_assoc, List.nil_append]
                    simp only [parseStrBody]
                    simp [show hexVal '0' = some 0 from rfl, h16a, h16b, harith,
                      Char.ofNat_toNat]
                    rw [if_neg (by omega), if_neg (by omega)]
                    rw [ih tail f (by omega)]
                    have harith2 : c.toNat / 16 * 16 + c.toNat % 16 = c.toNat := by
                      omega
                    rw [harith2, Char.ofNat_toNat]
                  · have he : escJ c = [c] := by
                      simp only [escJ, if_neg q1, if_neg q2, if_neg q3, if_neg q4,
                        if_neg q5, if_neg q6, if_neg q7, if_neg q8]
                    rw [he] at hf ⊢
                    simp only [List.length_cons, List.length_nil] at hf
                    obtain ⟨f, rfl⟩ : ∃ f, fuel = f + 1 := ⟨fuel - 1, by omega⟩
                    simp only [List.cons_append, List.append_assoc, List.nil_append]
                    simp only [parseStrBody]
                    rw [if_neg q1, if_neg q2, if_neg q8, ih tail f (by omega)]

/-- Whole-string decoding inverts escaping (the scanner's fuel, the input
length, always suffices). -/
theorem parseStrTop_esc (s tail : PyStr) :
    parseStrTop ((s.map escJ).flatten ++ '"' :: tail) = some (s, tail) := by
  unfold parseStrTop
  apply parseStrBody_esc
  simp only [List.length_append, List.length_cons]
  omega

/-- The value parser ignores a leading whitespace run. -/
theorem parseVal_ws (w cs : PyStr) (fuel : Nat)
    (hw : ∀ c ∈ w, isJsonWs c = true) :
    parseVal fuel (w ++ cs) = parseVal fuel cs := by
  cases fuel with
  | zero => rfl
  | succ f => simp only [parseVal, skipWs_append_ws w cs hw]

/-- The member parser ignores a leading whitespace run. -/
theorem parseMembers_ws (w cs : PyStr) (fuel : Nat)
    (acc : List (PyStr × Json)) (hw : ∀ c ∈ w, isJsonWs c = true) :
    parseMembers fuel acc (w ++ cs) = parseMembers fuel acc cs := by
  cases fuel with
  | zero => rfl
  | succ f => simp only [parseMembers, skipWs_append_ws w cs hw]

/-- With no leading `.`, the fraction phase of `parseNumTail` is trivial and
only the exponent phase remains. -/
theorem parseNumTail_eq_exPhase (acc cs : PyStr) (h : ∀ r, ¬ cs = '.' :: r) :
    parseNumTail acc cs = exPhase acc cs := by
  unfold parseNumTail
  split
  · rename_i r
    exact absurd rfl (h r)
  · rfl

/-- A `.` followed by digits is consumed by the fraction phase. -/
theorem parseNumTail_dot (acc r ds r2 : PyStr) (hspan : spanDigits r = (ds, r2))
    (hne : ¬ ds = []) :
    parseNumTail acc ('.' :: r) = exPhase (acc ++ '.' :: ds) r2 := by
  unfold parseNumTail
  cases ds with
  | nil => exact absurd rfl hne
  | cons d ds' =>
    simp only [hspan]
    rfl

/-- A `.` not followed by digits is left to the exponent phase. -/
theorem parseNumTail_dot_triv (acc r r2 : PyStr)
    (hspan : spanDigits r = ([], r2)) :
    parseNumTail acc ('.' :: r) = exPhase acc ('.' :: r) := by
  unfold parseNumTail
  simp only [hspan]
  rfl

/-- A delimiter head is not a digit. -/
theorem delimOk_head_not_digit (rest : PyStr) (h : delimOk rest) :
    ∀ c, rest.head? = some c → c.isDigit = false := by
  rcases h with rfl | ⟨r, rfl⟩ | ⟨r, rfl⟩ | ⟨r, rfl⟩ <;>
    intro c hc <;> simp [List.head?] at hc
  · exact hc ▸ (by decide)
  · exact hc ▸ (by decide)
  · exact hc ▸ (by decide)

/-- On a delimiter (or the end), the exponent phase consumes nothing. -/
theorem exPhase_triv (acc1 rest : PyStr) (hrest : delimOk rest) :
    exPhase acc1 rest = (acc1, rest) := by
  rcases hrest with rfl | ⟨r, rfl⟩ | ⟨r, rfl⟩ | ⟨r, rfl⟩
  · rfl
  · simp [exPhase]
  · simp [exPhase]
  · simp [exPhase]

/-- A well-shaped exponent is consumed exactly by the exponent phase. -/
theorem exPhase_consume (acc1 : PyStr) (e : Char) (sg ds rest : PyStr)
    (he : e = 'e' ∨ e = 'E') (hsg : sg = [] ∨ sg = ['+'] ∨ sg = ['-'])
    (hds : digitsNE ds) (hrest : delimOk rest) :
    exPhase acc1 (e :: (sg ++ (ds ++ rest))) = (acc1 ++ e :: (sg ++ ds), rest) := by
  obtain ⟨d, ds', rfl⟩ : ∃ d ds', ds = d :: ds' := by
    cases ds with
    | nil => exact absurd rfl hds.1
    | cons a b => exact ⟨a, b, rfl⟩
  have hdd : d.isDigit = true := hds.2 d (by simp)
  have hspan : spanDigits ((d :: ds') ++ rest) = (d :: ds', rest) :=
    spanDigits_append _ _ hds.2 (delimOk_head_not_digit rest hrest)
  have hdpm : ¬ (d = '+' ∨ d = '-') := by
    rintro (rfl | rfl) <;> revert hdd <;> decide
  simp only [List.cons_append] at hspan
  rcases he with rfl | rfl <;> rcases hsg with rfl | rfl | rfl <;>
    simp [exPhase, hdpm, hspan]

/-- The first character after a number lexeme (exponent part onwards) is
never a digit. -/
theorem exRest_head_not_digit (ex rest : PyStr) (hex : exShape ex)
    (hrest : delimOk rest) :
    ∀ c, (ex ++ rest).head? = some c → c.isDigit = false := by
  rcases hex with rfl | ⟨e, sg, ds, he, hsg, hds, rfl⟩
  · simpa using delimOk_head_not_digit rest hrest
  · intro c hc
    simp at hc
    subst hc
    rcases he with rfl | rfl <;> decide

/-- Re-parsing a well-shaped fraction and exponent before a delimiter
consumes exactly them. -/
theorem parseNumTail_reparse (acc fr ex rest : PyStr)
    (hfr : frShape fr) (hex : exShape ex) (hrest : delimOk rest) :
    parseNumTail acc (fr ++ (ex ++ rest)) = (acc ++ fr ++ ex, rest) := by
  rcases hfr with rfl | ⟨ds, hds, rfl⟩
  · rcases hex with rfl | ⟨e, sg, ds2, he, hsg, hds2, rfl⟩
    · have hnd : ∀ r2, ¬ rest = '.' :: r2 := by
        rcases hrest with rfl | ⟨r, rfl⟩ | ⟨r, rfl⟩ | ⟨r, rfl⟩ <;>
          intro r2 hr <;> simp at hr
      simp only [List.nil_append, List.append_nil]
      rw [parseNumTail_eq_exPhase acc rest hnd, exPhase_triv acc rest hrest]
    · have hnd : ∀ r2, ¬ e :: (sg ++ (ds2 ++ rest)) = '.' :: r2 := by
        rcases he with rfl | rfl <;> intro r2 hr <;> simp at hr
      simp only [List.nil_append, List.cons_append, List.append_assoc]
      rw [parseNumTail_eq_exPhase acc _ hnd,
        exPhase_consume acc e sg ds2 rest he hsg hds2 hrest]
  · rcases hex with rfl | ⟨e, sg, ds2, he, hsg, hds2, rfl⟩
    · have hspan : spanDigits (ds ++ ([] ++ rest)) = (ds, [] ++ rest) :=
        spanDigits_append _ _ hds.2
          (exRest_head_not_digit [] rest (Or.inl rfl) hrest)
      simp only [List.nil_append] at hspan ⊢
      simp only [List.cons_append, List.append_nil]
      rw [parseNumTail_dot acc _ ds rest hspan hds.1, exPhase_triv _ rest hrest]
    · have hspan : spanDigits (ds ++ (e :: (sg ++ (ds2 ++ rest)))) =
          (ds, e :: (sg ++ (ds2 ++ rest))) :=
        spanDigits_append _ _ hds.2
          (by intro c hc; simp at hc; subst hc; rcases he with rfl | rfl <;> decide)
      simp only [List.cons_append, List.append_assoc]
      rw [parseNumTail_dot acc _ ds _ hspan hds.1,
        exPhase_consume _ e sg ds2 rest he hsg hds2 hrest]
      simp

/-- The first character after a number lexeme (fraction part onwards) is
never a digit. -/
theorem frExRest_head_not_digit (fr ex rest : PyStr) (hfr : frShape fr)
    (hex : exShape ex) (hrest : delimOk rest) :
    ∀ c, (fr ++ (ex ++ rest)).head? = some c → c.isDigit = false := by
  rcases hfr with rfl | ⟨ds, hds, rfl⟩
  · simpa using exRest_head_not_digit ex rest hex hrest
  · intro c hc
    simp at hc
    subst hc
    decide


/-- A digit character is one of the ten concrete digits. -/
theorem digit_enum (d : Char) (hd : d.isDigit = true) :
    d = '0' ∨ d = '1' ∨ d = '2' ∨ d = '3' ∨ d = '4' ∨ d = '5' ∨ d = '6' ∨
    d = '7' ∨ d = '8' ∨ d = '9' := by
  have h1 : 48 ≤ d.toNat := by
    simp [Char.isDigit] at hd
    exact hd.1
  have h2 : d.toNat ≤ 57 := by
    simp [Char.isDigit] at hd
    exact hd.2
  have hof := Char.ofNat_toNat d
  interval_cases h : d.toNat <;> rw [← hof] <;> decide

/-- Re-parsing a well-shaped number lexeme before a delimiter yields the
lexeme back with the delimiter untouched. -/
theorem parseNum_reparse (lex rest : PyStr) (h : numShape lex)
    (hrest : delimOk rest) : parseNum (lex ++ rest) = some (lex, rest) := by
  obtain ⟨sgn, ip, fr, ex, rfl, hsgn, hip, hfr, hex⟩ := h
  have hrp : ∀ acc, parseNumTail acc (fr ++ (ex ++ rest)) = (acc ++ fr ++ ex, rest) :=
    fun acc => parseNumTail_reparse acc fr ex rest hfr hex hrest
  simp only [List.append_assoc]
  rcases hsgn with rfl | rfl
  · rcases hip with rfl | ⟨hipNE, hip0⟩
    · simp only [List.nil_append, List.cons_append]
      simp [parseNum, hrp]
    · obtain ⟨d, ds', rfl⟩ : ∃ d ds', ip = d :: ds' := by
        cases ip with
        | nil => exact absurd rfl hipNE.1
        | cons a b => exact ⟨a, b, rfl⟩
      have hd : d.isDigit = true := hipNE.2 d (by simp)
      have hd0 : ¬ d = '0' := by simpa using hip0
      have hspan : spanDigits (ds' ++ (fr ++ (ex ++ rest))) =
          (ds', fr ++ (ex ++ rest)) :=
        spanDigits_append _ _ (fun c hc => hipNE.2 c (List.mem_cons_of_mem _ hc))
          (frExRest_head_not_digit fr ex rest hfr hex hrest)
      simp only [List.nil_append, List.cons_append]
      rcases digit_enum d hd with rfl | rfl | rfl | rfl | rfl | rfl | rfl | rfl | rfl | rfl
      · exact absurd rfl hd0
      all_goals simp [parseNum, hspan, hrp]
  · rcases hip with rfl | ⟨hipNE, hip0⟩
    · simp only [List.cons_append]
      simp [parseNum, hrp]
    · obtain ⟨d, ds', rfl⟩ : ∃ d ds', ip = d :: ds' := by
        cases ip with
        | nil => exact absurd rfl hipNE.1
        | cons a b => exact ⟨a, b, rfl⟩
      have hd : d.isDigit = true := hipNE.2 d (by simp)
      have hd0 : ¬ d = '0' := by simpa using hip0
      have hspan : spanDigits (ds' ++ (fr ++ (ex ++ rest))) =
          (ds', fr ++ (ex ++ rest)) :=
        spanDigits_append _ _ (fun c hc => hipNE.2 c (List.mem_cons_of_mem _ hc))
          (frExRest_head_not_digit fr ex rest hfr hex hrest)
      simp only [List.cons_append]
      rcases digit_enum d hd with rfl | rfl | rfl | rfl | rfl | rfl | rfl | rfl | rfl | rfl
      · exact absurd rfl hd0
      all_goals simp [parseNum, hspan, hrp]

/-- Whatever the exponent phase consumes is a well-shaped exponent appended
to the accumulator. -/
theorem exPhase_shape (acc1 cs1 : PyStr) :
    ∃ ex rest, exPhase acc1 cs1 = (acc1 ++ ex, rest) ∧ exShape ex := by
  cases cs1 with
  | nil => exact ⟨[], [], by simp [exPhase], Or.inl rfl⟩
  | cons e r =>
    by_cases he : e = 'e' ∨ e = 'E'
    · cases r with
      | nil =>
        refine ⟨[], e :: [], ?_, Or.inl rfl⟩
        simp [exPhase, if_pos he, spanDigits]
      | cons c2 rr =>
        by_cases hpm : c2 = '+' ∨ c2 = '-'
        · rcases hsp : spanDigits rr with ⟨p1, p2⟩
          cases p1 with
          | nil =>
            refine ⟨[], e :: c2 :: rr, ?_, Or.inl rfl⟩
            simp [exPhase, if_pos he, if_pos hpm, hsp]
          | cons d dst =>
            refine ⟨e :: ([c2] ++ (d :: dst)), p2, ?_, ?_⟩
            · simp [exPhase, if_pos he, if_pos hpm, hsp]
            · refine Or.inr ⟨e, [c2], d :: dst, he, ?_, ⟨by simp, ?_⟩, rfl⟩
              · rcases hpm with rfl | rfl
                · exact Or.inr (Or.inl rfl)
                · exact Or.inr (Or.inr rfl)
              · intro c hc
                have : d :: dst = rr.takeWhile Char.isDigit :=
                  (congrArg Prod.fst hsp).symm
                rw [this] at hc
                exact List.mem_takeWhile_imp hc
        · rcases hsp : spanDigits (c2 :: rr) with ⟨p1, p2⟩
          cases p1 with
          | nil =>
            refine ⟨[], e :: c2 :: rr, ?_, Or.inl rfl⟩
            simp [exPhase, if_pos he, if_neg hpm, hsp]
          | cons d dst =>
            refine ⟨e :: ([] ++ (d :: dst)), p2, ?_, ?_⟩
            · simp [exPhase, if_pos he, if_neg hpm, hsp]
            · refine Or.inr ⟨e, [], d :: dst, he, Or.inl rfl, ⟨by simp, ?_⟩, rfl⟩
              intro c hc
              have : d :: dst = (c2 :: rr).takeWhile Char.isDigit :=
                (congrArg Prod.fst hsp).symm
              rw [this] at hc
              exact List.mem_takeWhile_imp hc
    · refine ⟨[], e :: r, ?_, Or.inl rfl⟩
      simp [exPhase, if_neg he]

/-- Whatever `parseNumTail` consumes is a well-shaped fraction and exponent
appended to the accumulator. -/
theorem parseNumTail_shape (acc cs : PyStr) :
    ∃ fr ex rest2, parseNumTail acc cs = ((acc ++ fr) ++ ex, rest2) ∧
      frShape fr ∧ exShape ex := by
  cases cs with
  | nil =>
    obtain ⟨ex, rest, heq, hex⟩ := exPhase_shape acc []
    exact ⟨[], ex, rest,
      by rw [parseNumTail_eq_exPhase acc [] (by intro r h; cases h), heq]; simp,
      Or.inl rfl, hex⟩
  | cons c r =>
    by_cases hc : c = '.'
    · subst hc
      rcases hsp : spanDigits r with ⟨ds, r2⟩
      cases ds with
      | nil =>
        obtain ⟨ex, rest, heq, hex⟩ := exPhase_shape acc ('.' :: r)
        exact ⟨[], ex, rest,
          by rw [parseNumTail_dot_triv acc r r2 hsp, heq]; simp, Or.inl rfl, hex⟩
      | cons d dst =>
        obtain ⟨ex, rest, heq, hex⟩ := exPhase_shape (acc ++ '.' :: (d :: dst)) r2
        refine ⟨'.' :: (d :: dst), ex, rest, ?_, ?_, hex⟩
        · rw [parseNumTail_dot acc r (d :: dst) r2 hsp (by simp), heq]
        · refine Or.inr ⟨d :: dst, ⟨by simp, ?_⟩, rfl⟩
          intro x hx
          have : d :: dst = r.takeWhile Char.isDigit :=
            (congrArg Prod.fst hsp).symm
          rw [this] at hx
          exact List.mem_takeWhile_imp hx
    · obtain ⟨ex, rest, heq, hex⟩ := exPhase_shape acc (c :: r)
      refine ⟨[], ex, rest, ?_, Or.inl rfl, hex⟩
      rw [parseNumTail_eq_exPhase acc (c :: r)
        (by intro r2 h2; exact hc (List.cons.injEq c r '.' r2 ▸ h2).1), heq]
      simp



/-- Assembling a lexeme shape from a digit-headed integer part and the tail
phases. -/
theorem numShape_of_tail (sgn : PyStr) (c : Char) (ds r2p lex rest : PyStr)
    (hsgn : sgn = [] ∨ sgn = ['-'])
    (h : parseNumTail (sgn ++ (c :: ds)) r2p = (lex, rest))
    (hd : c.isDigit = true) (h0 : ¬ c = '0')
    (hds : ∀ x ∈ ds, x.isDigit = true) : numShape lex := by
  obtain ⟨fr, ex, rest2, heq, hfr, hex⟩ := parseNumTail_shape (sgn ++ (c :: ds)) r2p
  rw [heq] at h
  have hlex : lex = ((sgn ++ (c :: ds)) ++ fr) ++ ex := (congrArg Prod.fst h).symm
  refine ⟨sgn, c :: ds, fr, ex, ?_, hsgn, ?_, hfr, hex⟩
  · simp [hlex]
  · refine Or.inr ⟨⟨by simp, ?_⟩, by simpa using h0⟩
    intro x hx
    rcases List.mem_cons.mp hx with rfl | hx2
    · exact hd
    · exact hds x hx2

/-- Assembling a lexeme shape from a `0` integer part and the tail
phases. -/
theorem numShape_of_tail0 (sgn r2p lex rest : PyStr)
    (hsgn : sgn = [] ∨ sgn = ['-'])
    (h : parseNumTail (sgn ++ ['0']) r2p = (lex, rest)) : numShape lex := by
  obtain ⟨fr, ex, rest2, heq, hfr, hex⟩ := parseNumTail_shape (sgn ++ ['0']) r2p
  rw [heq] at h
  have hlex : lex = ((sgn ++ ['0']) ++ fr) ++ ex := (congrArg Prod.fst h).symm
  refine ⟨sgn, ['0'], fr, ex, ?_, hsgn, Or.inl rfl, hfr, hex⟩
  simp [hlex]

/-- Every lexeme `parseNum` produces is grammatical. -/
theorem parseNum_shape (cs lex rest : PyStr)
    (h : parseNum cs = some (lex, rest)) : numShape lex := by
  cases cs with
  | nil => simp [parseNum] at h
  | cons c r =>
    by_cases hneg : c = '-'
    · subst hneg
      cases r with
      | nil => simp [parseNum] at h
      | cons c2 r2 =>
        cases hcd : c2.isDigit with
        | false =>
          exfalso
          simp only [parseNum] at h
          split at h
          · rename_i r3 hEq
            simp at hEq
            rw [hEq.1] at hcd
            exact absurd hcd (by decide)
          · rename_i c3 r3 hno0 hEq
            simp at hEq
            rw [hEq.1] at hcd
            simp [hcd] at h
          · rename_i hEq
            simp at hEq
        | true =>
          rcases digit_enum c2 hcd with rfl | rfl | rfl | rfl | rfl | rfl | rfl | rfl | rfl | rfl
          · simp [parseNum] at h
            exact numShape_of_tail0 ['-'] r2 lex rest (Or.inr rfl) (by simpa using h)
          all_goals
            rcases hsp : spanDigits r2 with ⟨ds, r2p⟩
            simp [parseNum, hsp] at h
            exact numShape_of_tail ['-'] _ ds r2p lex rest (Or.inr rfl)
              (by simpa using h) (by decide) (by decide)
              (fun x hx => by
                have hts : ds = r2.takeWhile Char.isDigit :=
                  (congrArg Prod.fst hsp).symm
                rw [hts] at hx
                exact List.mem_takeWhile_imp hx)
    · cases hcd : c.isDigit with
      | false =>
        exfalso
        simp only [parseNum] at h
        split at h
        · rename_i r3 heqm
          split at heqm
          · rename_i r4 hEq
            simp at hEq
            exact hneg hEq.1
          · simp at heqm
            rw [heqm.1] at hcd
            exact absurd hcd (by decide)
        · rename_i c3 r3 hno0 heqm
          split at heqm
          · rename_i r4 hEq
            simp at hEq
            exact hneg hEq.1
          · simp at heqm
            rw [heqm.1] at hcd
            simp [hcd] at h
        · rename_i heqm
          split at heqm
          · rename_i r4 hEq
            simp at hEq
            exact hneg hEq.1
          · simp at heqm
      | true =>
        rcases digit_enum c hcd with rfl | rfl | rfl | rfl | rfl | rfl | rfl | rfl | rfl | rfl
        · simp [parseNum] at h
          exact numShape_of_tail0 [] r lex rest (Or.inl rfl) (by simpa using h)
        all_goals
          rcases hsp : spanDigits r with ⟨ds, r2p⟩
          simp [parseNum, hsp] at h
          exact numShape_of_tail [] _ ds r2p lex rest (Or.inl rfl)
            (by simpa using h) (by decide) (by decide)
            (fun x hx => by
              have hts : ds = r.takeWhile Char.isDigit :=
                (congrArg Prod.fst hsp).symm
              rw [hts] at hx
              exact List.mem_takeWhile_imp hx)


theorem jsize_pos (v : Json) : 1 ≤ jsize v := by
  cases v <;> simp [jsize] <;> omega

theorem delimOk_arrRest (xs : List Json) (rest : PyStr) :
    delimOk (dumpArrRest xs ++ rest) := by
  cases xs with
  | nil => exact Or.inr (Or.inr (Or.inr ⟨rest, rfl⟩))
  | cons y ys => exact Or.inr (Or.inl ⟨_, rfl⟩)

theorem delimOk_objRest (kvs : List (PyStr × Json)) (rest : PyStr) :
    delimOk (dumpObjRest kvs ++ rest) := by
  cases kvs with
  | nil => exact Or.inr (Or.inr (Or.inl ⟨rest, rfl⟩))
  | cons kv kvs' =>
    obtain ⟨k2, v2⟩ := kv
    exact Or.inr (Or.inl ⟨_, rfl⟩)

theorem key_fresh (acc : List (PyStr × Json)) (k : PyStr) (v : Json)
    (kvs : List (PyStr × Json))
    (h : ((acc ++ (k, v) :: kvs).map Prod.fst).Nodup) :
    ∀ kv ∈ acc, ¬ kv.1 = k := by
  induction acc with
  | nil => intro kv hm; cases hm
  | cons a rest ih =>
    intro kv hm he
    simp only [List.cons_append, List.map_cons, List.nodup_cons] at h
    rcases List.mem_cons.mp hm with rfl | hm2
    · have hmem : k ∈ ((k, v) :: kvs).map Prod.fst := by
        rw [List.map_cons]
        exact List.mem_cons_self _ _
      exact h.1 (by rw [he, List.map_append]; exact List.mem_append_right _ hmem)
    · exact ih h.2 kv hm2 he

theorem parseVal_dump_null (f : Nat) (rest : PyStr) :
    parseVal (f + 1) (dumpJ Json.null ++ rest) = some (Json.null, rest) := by
  rw [show dumpJ Json.null = 'n' :: pys "ull" from rfl]
  simp only [List.cons_append]
  simp only [parseVal]
  rw [skipWs_cons_not 'n' _ (by decide)]
  simp [isPrefixOf_self_append, List.drop_left' (show (pys "ull").length = 3 from rfl)]

theorem parseVal_dump_bool (f : Nat) (rest : PyStr) (b : Bool) :
    parseVal (f + 1) (dumpJ (Json.bool b) ++ rest) = some (Json.bool b, rest) := by
  cases b
  · rw [show dumpJ (Json.bool false) = 'f' :: pys "alse" from rfl]
    simp only [List.cons_append]
    simp only [parseVal]
    rw [skipWs_cons_not 'f' _ (by decide)]
    simp [isPrefixOf_self_append, List.drop_left' (show (pys "alse").length = 4 from rfl)]
  · rw [show dumpJ (Json.bool true) = 't' :: pys "rue" from rfl]
    simp only [List.cons_append]
    simp only [parseVal]
    rw [skipWs_cons_not 't' _ (by decide)]
    simp [isPrefixOf_self_append, List.drop_left' (show (pys "rue").length = 3 from rfl)]

theorem parseVal_dump_str (f : Nat) (rest : PyStr) (s : PyStr) :
    parseVal (f + 1) (dumpJ (Json.str s) ++ rest) = some (Json.str s, rest) := by
  rw [show dumpJ (Json.str s) = '"' :: ((s.map escJ).flatten ++ ['"']) from rfl]
  simp only [List.cons_append, List.append_assoc, List.singleton_append]
  simp only [parseVal]
  rw [skipWs_cons_not '"' _ (by decide)]
  simp [parseStrTop_esc]

theorem numShape_head (lex : PyStr) (h : numShape lex) :
    (∃ d t2, lex = '-' :: d :: t2 ∧ d.isDigit = true) ∨
    (∃ d t, lex = d :: t ∧ d.isDigit = true) := by
  obtain ⟨sgn, ip, fr, ex, rfl, hsgn, hip, hfr, hex⟩ := h
  have hipd : ∃ d ds', ip = d :: ds' ∧ d.isDigit = true := by
    rcases hip with rfl | ⟨hNE, h0⟩
    · exact ⟨'0', [], rfl, by decide⟩
    · obtain ⟨d, ds', rfl⟩ : ∃ d ds', ip = d :: ds' := by
        cases ip with
        | nil => exact absurd rfl hNE.1
        | cons a b => exact ⟨a, b, rfl⟩
      exact ⟨d, ds', rfl, hNE.2 d (by simp)⟩
  obtain ⟨d, ds', rfl, hd⟩ := hipd
  rcases hsgn with rfl | rfl
  · exact Or.inr ⟨d, ds' ++ fr ++ ex, by simp, hd⟩
  · exact Or.inl ⟨d, ds' ++ fr ++ ex, by simp, hd⟩

theorem parseVal_dump_num (f : Nat) (rest lex : PyStr) (h : numLexWf lex)
    (hrest : delimOk rest) :
    parseVal (f + 1) (dumpJ (Json.num lex) ++ rest) = some (Json.num lex, rest) := by
  rw [show dumpJ (Json.num lex) = lex from rfl]
  rcases h with hsh | rfl | rfl | rfl
  · rcases numShape_head lex hsh with ⟨d, t2, heq, hd⟩ | ⟨d, t, heq, hd⟩
    · have hrp := parseNum_reparse lex rest hsh hrest
      rw [heq] at hrp ⊢
      simp only [List.cons_append] at hrp ⊢
      simp only [parseVal]
      rw [skipWs_cons_not '-' _ (by decide)]
      have hdI : ¬ d = 'I' := ne_of_isDigit_false d 'I' hd (by decide)
      simp [hdI, hrp]
    · have hrp := parseNum_reparse lex rest hsh hrest
      rw [heq] at hrp ⊢
      simp only [List.cons_append] at hrp ⊢
      simp only [parseVal]
      rw [skipWs_cons_not d _ (isJsonWs_digit_false d hd)]
      have h1 : ¬ d = '{' := ne_of_isDigit_false d '{' hd (by decide)
      have h2 : ¬ d = '[' := ne_of_isDigit_false d '[' hd (by decide)
      have h3 : ¬ d = '"' := ne_of_isDigit_false d '"' hd (by decide)
      have h4 : ¬ d = 't' := ne_of_isDigit_false d 't' hd (by decide)
      have h5 : ¬ d = 'f' := ne_of_isDigit_false d 'f' hd (by decide)
      have h6 : ¬ d = 'n' := ne_of_isDigit_false d 'n' hd (by decide)
      have h7 : ¬ d = 'N' := ne_of_isDigit_false d 'N' hd (by decide)
      have h8 : ¬ d = 'I' := ne_of_isDigit_false d 'I' hd (by decide)
      have h9 : ¬ d = '-' := ne_of_isDigit_false d '-' hd (by decide)
      simp [h1, h2, h3, h4, h5, h6, h7, h8, h9, hrp]
  · have e1 : pys "NaN" = 'N' :: pys "aN" := rfl
    rw [e1]
    simp only [List.cons_append]
    simp only [parseVal]
    rw [skipWs_cons_not 'N' _ (by decide)]
    simp [isPrefixOf_self_append, e1,
      List.drop_left' (show (pys "aN").length = 2 from rfl)]
  · have e1 : pys "Infinity" = 'I' :: pys "nfinity" := rfl
    rw [e1]
    simp only [List.cons_append]
    simp only [parseVal]
    rw [skipWs_cons_not 'I' _ (by decide)]
    simp [isPrefixOf_self_append, e1,
      List.drop_left' (show (pys "nfinity").length = 7 from rfl)]
  · have e1 : pys "-Infinity" = '-' :: pys "Infinity" := rfl
    have e2 : pys "Infinity" = 'I' :: pys "nfinity" := rfl
    rw [e1, e2]
    simp only [List.cons_append]
    simp only [parseVal]
    rw [skipWs_cons_not '-' _ (by decide)]
    simp [isPrefixOf_self_append, e1, e2, List.isPrefixOf,
      List.drop_left' (show (pys "nfinity").length = 7 from rfl)]

theorem parseElems_dump (xs : List Json) :
    ∀ (x : Json) (acc : List Json) (fuel : Nat) (rest ws : PyStr),
    (∀ c ∈ ws, isJsonWs c = true) →
    (∀ fuel2 rest2, jsize x ≤ fuel2 → delimOk rest2 →
       parseVal fuel2 (dumpJ x ++ rest2) = some (x, rest2)) →
    (∀ y ∈ xs, ∀ fuel2 rest2, jsize y ≤ fuel2 → delimOk rest2 →
       parseVal fuel2 (dumpJ y ++ rest2) = some (y, rest2)) →
    asize (x :: xs) ≤ fuel → delimOk rest →
    parseElems fuel acc (ws ++ (dumpJ x ++ (dumpArrRest xs ++ rest))) =
      some (Json.arr (acc ++ x :: xs), rest) := by
  induction xs with
  | nil =>
    intro x acc fuel rest ws hws ihx ihs hfu hrest
    obtain ⟨f, rfl⟩ : ∃ f, fuel = f + 1 := ⟨fuel - 1, by
      have := jsize_pos x
      simp [asize] at hfu
      omega⟩
    simp only [parseElems]
    rw [show ws ++ (dumpJ x ++ (dumpArrRest [] ++ rest)) =
      ws ++ ((dumpJ x ++ (dumpArrRest [] ++ rest))) from rfl]
    rw [parseVal_ws ws _ f hws]
    rw [show dumpArrRest [] ++ rest = ']' :: rest from rfl]
    rw [ihx f (']' :: rest) (by simp [asize] at hfu; omega)
      (Or.inr (Or.inr (Or.inr ⟨rest, rfl⟩)))]
    simp only [skipWs_cons_not ']' rest (by decide)]
  | cons y ys ih =>
    intro x acc fuel rest ws hws ihx ihs hfu hrest
    obtain ⟨f, rfl⟩ : ∃ f, fuel = f + 1 := ⟨fuel - 1, by
      have := jsize_pos x
      simp [asize] at hfu
      omega⟩
    simp only [parseElems]
    rw [parseVal_ws ws _ f hws]
    rw [ihx f (dumpArrRest (y :: ys) ++ rest) (by simp [asize] at hfu ⊢; omega)
      (delimOk_arrRest _ _)]
    rw [show dumpArrRest (y :: ys) ++ rest =
      ',' :: (' ' :: (dumpJ y ++ (dumpArrRest ys ++ rest))) from by
        simp [dumpArrRest]]
    simp only [skipWs_cons_not ','
      (' ' :: (dumpJ y ++ (dumpArrRest ys ++ rest))) (by decide)]
    have hrec := ih y (acc ++ [x]) f rest [' '] (by intro c hc; simp at hc; subst hc; decide)
      (fun fuel2 rest2 => ihs y (by simp) fuel2 rest2)
      (fun z hz => ihs z (by simp [hz]))
      (by simp [asize] at hfu ⊢; omega) hrest
    rw [show (' ' :: (dumpJ y ++ (dumpArrRest ys ++ rest))) =
      [' '] ++ (dumpJ y ++ (dumpArrRest ys ++ rest)) from rfl]
    rw [hrec]
    simp

theorem skipWs_quote (X : PyStr) : skipWs ('"' :: X) = '"' :: X :=
  skipWs_cons_not _ _ (by decide)

theorem skipWs_colon (X : PyStr) : skipWs (':' :: X) = ':' :: X :=
  skipWs_cons_not _ _ (by decide)

theorem skipWs_comma (X : PyStr) : skipWs (',' :: X) = ',' :: X :=
  skipWs_cons_not _ _ (by decide)

theorem skipWs_rbrace (X : PyStr) : skipWs ('}' :: X) = '}' :: X :=
  skipWs_cons_not _ _ (by decide)

theorem parseMembers_dump (kvs : List (PyStr × Json)) :
    ∀ (k : PyStr) (v : Json) (acc : List (PyStr × Json)) (fuel : Nat)
      (rest ws : PyStr),
    (∀ c ∈ ws, isJsonWs c = true) →
    (∀ fuel2 rest2, jsize v ≤ fuel2 → delimOk rest2 →
       parseVal fuel2 (dumpJ v ++ rest2) = some (v, rest2)) →
    (∀ kv ∈ kvs, ∀ fuel2 rest2, jsize kv.2 ≤ fuel2 → delimOk rest2 →
       parseVal fuel2 (dumpJ kv.2 ++ rest2) = some (kv.2, rest2)) →
    ((acc ++ (k, v) :: kvs).map Prod.fst).Nodup →
    msize ((k, v) :: kvs) ≤ fuel → delimOk rest →
    parseMembers fuel acc
        (ws ++ (dumpStr k ++ (pys ": " ++ (dumpJ v ++ (dumpObjRest kvs ++ rest))))) =
      some (Json.obj (acc ++ (k, v) :: kvs), rest) := by
  induction kvs with
  | nil =>
    intro k v acc fuel rest ws hws ihv ihs hnd hfu hrest
    obtain ⟨f, rfl⟩ : ∃ f, fuel = f + 1 := ⟨fuel - 1, by
      have := jsize_pos v
      simp [msize] at hfu
      omega⟩
    simp only [parseMembers]
    rw [skipWs_append_ws ws _ hws]
    simp only [show dumpStr k ++ (pys ": " ++ (dumpJ v ++ (dumpObjRest [] ++ rest))) =
        '"' :: ((k.map escJ).flatten ++ '"' ::
          (pys ": " ++ (dumpJ v ++ (dumpObjRest [] ++ rest)))) from by
      simp [dumpStr]]
    simp only [skipWs_quote, parseStrTop_esc]
    simp only [show pys ": " ++ (dumpJ v ++ (dumpObjRest [] ++ rest)) =
        ':' :: (' ' :: (dumpJ v ++ (dumpObjRest [] ++ rest))) from rfl]
    simp only [skipWs_colon]
    rw [show (' ' :: (dumpJ v ++ (dumpObjRest [] ++ rest))) =
      [' '] ++ (dumpJ v ++ (dumpObjRest [] ++ rest)) from rfl]
    rw [parseVal_ws [' '] _ f (by intro c hc; simp at hc; subst hc; decide)]
    rw [ihv f _ (by have := jsize_pos v; simp [msize] at hfu; omega)
      (delimOk_objRest [] rest)]
    simp only [insertPy_not_mem acc k v (key_fresh acc k v [] hnd)]
    simp only [show dumpObjRest ([] : List (PyStr × Json)) ++ rest = '}' :: rest from rfl,
      skipWs_rbrace]
  | cons kv2 kvs' ih =>
    obtain ⟨k2, v2⟩ := kv2
    intro k v acc fuel rest ws hws ihv ihs hnd hfu hrest
    obtain ⟨f, rfl⟩ : ∃ f, fuel = f + 1 := ⟨fuel - 1, by
      have := jsize_pos v
      simp [msize] at hfu
      omega⟩
    simp only [parseMembers]
    rw [skipWs_append_ws ws _ hws]
    simp only [show dumpStr k ++
        (pys ": " ++ (dumpJ v ++ (dumpObjRest ((k2, v2) :: kvs') ++ rest))) =
        '"' :: ((k.map escJ).flatten ++ '"' ::
          (pys ": " ++ (dumpJ v ++ (dumpObjRest ((k2, v2) :: kvs') ++ rest)))) from by
      simp [dumpStr]]
    simp only [skipWs_quote, parseStrTop_esc]
    simp only [show pys ": " ++ (dumpJ v ++ (dumpObjRest ((k2, v2) :: kvs') ++ rest)) =
        ':' :: (' ' :: (dumpJ v ++ (dumpObjRest ((k2, v2) :: kvs') ++ rest))) from rfl]
    simp only [skipWs_colon]
    rw [show (' ' :: (dumpJ v ++ (dumpObjRest ((k2, v2) :: kvs') ++ rest))) =
      [' '] ++ (dumpJ v ++ (dumpObjRest ((k2, v2) :: kvs') ++ rest)) from rfl]
    rw [parseVal_ws [' '] _ f (by intro c hc; simp at hc; subst hc; decide)]
    rw [ihv f _ (by have := jsize_pos v; simp [msize] at hfu; omega)
      (delimOk_objRest _ rest)]
    simp only [insertPy_not_mem acc k v (key_fresh acc k v ((k2, v2) :: kvs') hnd)]
    simp only [show dumpObjRest ((k2, v2) :: kvs') ++ rest =
        ',' :: (' ' :: (dumpStr k2 ++ (pys ": " ++ (dumpJ v2 ++ (dumpObjRest kvs' ++ rest))))) from by
      simp [dumpObjRest], skipWs_comma]
    rw [show (' ' :: (dumpStr k2 ++ (pys ": " ++ (dumpJ v2 ++ (dumpObjRest kvs' ++ rest))))) =
      [' '] ++ (dumpStr k2 ++ (pys ": " ++ (dumpJ v2 ++ (dumpObjRest kvs' ++ rest)))) from rfl]
    have hnd2 : (((acc ++ [(k, v)]) ++ (k2, v2) :: kvs').map Prod.fst).Nodup := by
      have he : (acc ++ [(k, v)]) ++ (k2, v2) :: kvs' = acc ++ (k, v) :: (k2, v2) :: kvs' := by
        simp
      rw [he]
      exact hnd
    rw [ih k2 v2 (acc ++ [(k, v)]) f rest [' ']
      (by intro c hc; simp at hc; subst hc; decide)
      (fun fuel2 rest2 => ihs (k2, v2) (by simp) fuel2 rest2)
      (fun kv hkv => ihs kv (by simp [hkv]))
      hnd2
      (by have := jsize_pos v; simp [msize] at hfu ⊢; omega) hrest]
    simp

theorem skipWs_rbracket (X : PyStr) : skipWs (']' :: X) = ']' :: X :=
  skipWs_cons_not _ _ (by decide)

/-- The serialization of a well-formed value begins with a non-whitespace,
non-delimiter character. -/
theorem dumpJ_head (x : Json) (h : JsonWf x) :
    ∃ c t, dumpJ x = c :: t ∧ isJsonWs c = false ∧ ¬ c = ']' ∧ ¬ c = '}' := by
  cases h with
  | null => exact ⟨'n', pys "ull", rfl, by decide, by decide, by decide⟩
  | bool b =>
    cases b
    · exact ⟨'f', pys "alse", rfl, by decide, by decide, by decide⟩
    · exact ⟨'t', pys "rue", rfl, by decide, by decide, by decide⟩
  | num lex hlex =>
    rcases hlex with hsh | rfl | rfl | rfl
    · rcases numShape_head lex hsh with ⟨d, t2, heq, hd⟩ | ⟨d, t, heq, hd⟩
      · exact ⟨'-', d :: t2, by rw [show dumpJ (Json.num lex) = lex from rfl, heq],
          by decide, by decide, by decide⟩
      · exact ⟨d, t, by rw [show dumpJ (Json.num lex) = lex from rfl, heq],
          isJsonWs_digit_false d hd, ne_of_isDigit_false d ']' hd (by decide),
          ne_of_isDigit_false d '}' hd (by decide)⟩
    · exact ⟨'N', pys "aN", rfl, by decide, by decide, by decide⟩
    · exact ⟨'I', pys "nfinity", rfl, by decide, by decide, by decide⟩
    · exact ⟨'-', pys "Infinity", rfl, by decide, by decide, by decide⟩
  | str s =>
    exact ⟨'"', (s.map escJ).flatten ++ ['"'], rfl, by decide, by decide, by decide⟩
  | arr xs hmem =>
    cases xs with
    | nil => exact ⟨'[', [']'], rfl, by decide, by decide, by decide⟩
    | cons y ys =>
      exact ⟨'[', dumpJ y ++ dumpArrRest ys, rfl, by decide, by decide, by decide⟩
  | obj kvs hval hkeys =>
    cases kvs with
    | nil => exact ⟨'{', ['}'], rfl, by decide, by decide, by decide⟩
    | cons kv kvs' =>
      obtain ⟨k2, v2⟩ := kv
      exact ⟨'{', dumpStr k2 ++ pys ": " ++ dumpJ v2 ++ dumpObjRest kvs', rfl,
        by decide, by decide, by decide⟩

/-- Round-trip: parsing the serialization of a well-formed value before a
delimiter recovers exactly the value. -/
theorem parseVal_dump (v : Json) (hwf : JsonWf v) :
    ∀ fuel rest, jsize v ≤ fuel → delimOk rest →
      parseVal fuel (dumpJ v ++ rest) = some (v, rest) := by
  induction hwf with
  | null =>
    intro fuel rest hfu hrest
    obtain ⟨f, rfl⟩ : ∃ f, fuel = f + 1 := ⟨fuel - 1, by simp [jsize] at hfu; omega⟩
    exact parseVal_dump_null f rest
  | bool b =>
    intro fuel rest hfu hrest
    obtain ⟨f, rfl⟩ : ∃ f, fuel = f + 1 := ⟨fuel - 1, by simp [jsize] at hfu; omega⟩
    exact parseVal_dump_bool f rest b
  | num lex hlex =>
    intro fuel rest hfu hrest
    obtain ⟨f, rfl⟩ : ∃ f, fuel = f + 1 := ⟨fuel - 1, by simp [jsize] at hfu; omega⟩
    exact parseVal_dump_num f rest lex hlex hrest
  | str s =>
    intro fuel rest hfu hrest
    obtain ⟨f, rfl⟩ : ∃ f, fuel = f + 1 := ⟨fuel - 1, by simp [jsize] at hfu; omega⟩
    exact parseVal_dump_str f rest s
  | arr xs hmem ih =>
    intro fuel rest hfu hrest
    cases xs with
    | nil =>
      obtain ⟨f, rfl⟩ : ∃ f, fuel = f + 1 := ⟨fuel - 1, by simp [jsize] at hfu; omega⟩
      obtain ⟨f2, rfl⟩ : ∃ f2, f = f2 + 1 := ⟨f - 1, by simp [jsize, asize] at hfu; omega⟩
      rw [show dumpJ (Json.arr []) = '[' :: [']'] from rfl]
      simp only [List.cons_append, List.singleton_append]
      simp only [parseVal]
      rw [skipWs_cons_not '[' _ (by decide)]
      simp only [show ¬('[' : Char) = '{' from by decide, if_neg, if_true,
        reduceIte]
      simp [parseArrBody, skipWs_rbracket]
    | cons x xs' =>
      obtain ⟨f, rfl⟩ : ∃ f, fuel = f + 1 := ⟨fuel - 1, by simp [jsize] at hfu; omega⟩
      obtain ⟨f2, rfl⟩ : ∃ f2, f = f2 + 1 := ⟨f - 1, by
        have := jsize_pos x
        simp [jsize, asize] at hfu
        omega⟩
      rw [show dumpJ (Json.arr (x :: xs')) = '[' :: (dumpJ x ++ dumpArrRest xs') from rfl]
      simp only [List.cons_append, List.append_assoc]
      simp only [parseVal]
      rw [skipWs_cons_not '[' _ (by decide)]
      simp only [show ¬('[' : Char) = '{' from by decide, if_neg, if_true,
        reduceIte]
      simp only [parseArrBody]
      obtain ⟨c, t, hct, hws1, hne1, hne2⟩ := dumpJ_head x (hmem x (by simp))
      rw [hct]
      simp only [List.cons_append]
      rw [skipWs_cons_not c _ hws1]
      split
      · rename_i r heq
        exact absurd (by simpa using congrArg (fun l => l.headI) heq) hne1
      · rw [show c :: (t ++ (dumpArrRest xs' ++ rest)) =
          (c :: t) ++ (dumpArrRest xs' ++ rest) from rfl, ← hct]
        have := parseElems_dump xs' x [] f2 rest []
          (by intro ch hch; cases hch)
          (fun fuel2 rest2 => ih x (by simp) fuel2 rest2)
          (fun y hy => ih y (by simp [hy]))
          (by simp [jsize, asize] at hfu ⊢; omega) hrest
        simpa using this
  | obj kvs hval hkeys ihv =>
    intro fuel rest hfu hrest
    cases kvs with
    | nil =>
      obtain ⟨f, rfl⟩ : ∃ f, fuel = f + 1 := ⟨fuel - 1, by simp [jsize] at hfu; omega⟩
      obtain ⟨f2, rfl⟩ : ∃ f2, f = f2 + 1 := ⟨f - 1, by simp [jsize, msize] at hfu; omega⟩
      rw [show dumpJ (Json.obj []) = '{' :: ['}'] from rfl]
      simp only [List.cons_append, List.singleton_append]
      simp only [parseVal]
      rw [skipWs_cons_not '{' _ (by decide)]
      simp [parseObjBody, skipWs_rbrace]
    | cons kv0 kvs' =>
      obtain ⟨k0, v0⟩ := kv0
      obtain ⟨f, rfl⟩ : ∃ f, fuel = f + 1 := ⟨fuel - 1, by simp [jsize] at hfu; omega⟩
      obtain ⟨f2, rfl⟩ : ∃ f2, f = f2 + 1 := ⟨f - 1, by
        have := jsize_pos v0
        simp [jsize, msize] at hfu
        omega⟩
      rw [show dumpJ (Json.obj ((k0, v0) :: kvs')) =
        '{' :: (dumpStr k0 ++ pys ": " ++ dumpJ v0 ++ dumpObjRest kvs') from rfl]
      simp only [List.cons_append, List.append_assoc]
      simp only [parseVal]
      rw [skipWs_cons_not '{' _ (by decide)]
      simp only [reduceIte]
      simp only [parseObjBody]
      simp only [show dumpStr k0 ++ (pys ": " ++ (dumpJ v0 ++ (dumpObjRest kvs' ++ rest))) =
          '"' :: ((k0.map escJ).flatten ++ '"' ::
            (pys ": " ++ (dumpJ v0 ++ (dumpObjRest kvs' ++ rest)))) from by
        simp [dumpStr]]
      simp only [skipWs_quote]
      have := parseMembers_dump kvs' k0 v0 [] f2 rest []
        (by intro ch hch; cases hch)
        (fun fuel2 rest2 => ihv (k0, v0) (by simp) fuel2 rest2)
        (fun kv hkv => ihv kv (by simp [hkv]))
        (by simpa using hkeys)
        (by simp [jsize, msize] at hfu ⊢; omega) hrest
      simpa [dumpStr] using this

mutual

theorem jsize_le_dump : ∀ v : Json, jsize v ≤ 4 * (dumpJ v).length + 1
  | .null => by decide
  | .bool b => by cases b <;> decide
  | .num lex => by simp [jsize, dumpJ]
  | .str s => by simp [jsize, dumpJ, dumpStr]
  | .arr [] => by decide
  | .arr (x :: xs) => by
      have h1 := jsize_le_dump x
      have h2 := asize_le_dump xs
      simp only [jsize, asize, dumpJ, List.length_cons, List.length_append] at *
      omega
  | .obj [] => by decide
  | .obj ((k, v) :: kvs) => by
      have h1 := jsize_le_dump v
      have h2 := msize_le_dump kvs
      have h3 : 2 ≤ (dumpStr k).length := by simp [dumpStr]
      simp only [jsize, msize, dumpJ, List.length_cons, List.length_append] at *
      omega

theorem asize_le_dump : ∀ xs : List Json, asize xs ≤ 4 * (dumpArrRest xs).length
  | [] => by simp [asize]
  | x :: xs => by
      have h1 := jsize_le_dump x
      have h2 := asize_le_dump xs
      simp only [asize, dumpArrRest, List.length_cons, List.length_append] at *
      omega

theorem msize_le_dump : ∀ kvs : List (PyStr × Json),
    msize kvs ≤ 4 * (dumpObjRest kvs).length
  | [] => by simp [msize]
  | (k, v) :: kvs => by
      have h1 := jsize_le_dump v
      have h2 := msize_le_dump kvs
      have h3 : 2 ≤ (dumpStr k).length := by simp [dumpStr]
      simp only [msize, dumpObjRest, List.length_cons, List.length_append] at *
      omega

end

/-- `json.loads` of a well-formed value's serialization recovers the
value. -/
theorem jsonLoads_dump (v : Json) (hwf : JsonWf v) : jsonLoads (dumpJ v) = some v := by
  unfold jsonLoads
  have h := parseVal_dump v hwf (4 * (dumpJ v).length + 8) []
    (by have := jsize_le_dump v; omega) (Or.inl rfl)
  rw [List.append_nil] at h
  rw [h]
  simp [skipWs]

theorem insertPy_wf (acc : List (PyStr × Json)) (k : PyStr) (v : Json)
    (hacc : ∀ kv ∈ acc, JsonWf kv.2) (hv : JsonWf v) :
    ∀ kv ∈ insertPy acc k v, JsonWf kv.2 := by
  unfold insertPy
  split
  · intro kv hkv
    rcases List.mem_map.mp hkv with ⟨kv0, hkv0, rfl⟩
    by_cases hk : kv0.1 = k
    · simpa [hk] using hv
    · simpa [hk] using hacc kv0 hkv0
  · intro kv hkv
    rcases List.mem_append.mp hkv with h1 | h2
    · exact hacc kv h1
    · have : kv = (k, v) := by simpa using h2
      rw [this]
      exact hv

theorem insertPy_nodup (acc : List (PyStr × Json)) (k : PyStr) (v : Json)
    (hnd : (acc.map Prod.fst).Nodup) :
    ((insertPy acc k v).map Prod.fst).Nodup := by
  unfold insertPy
  split
  · have heq : (acc.map (fun kv => if kv.1 = k then (k, v) else kv)).map Prod.fst =
        acc.map Prod.fst := by
      rw [List.map_map]
      apply List.map_congr_left
      intro kv _
      by_cases hk : kv.1 = k <;> simp [hk]
    rw [heq]
    exact hnd
  · rename_i hany
    rw [List.map_append]
    rw [List.nodup_append]
    refine ⟨hnd, by simp, ?_⟩
    intro a ha hb
    simp at hb
    subst hb
    rcases List.mem_map.mp ha with ⟨kv0, hkv0, heq0⟩
    simp only [List.any_eq_true, decide_eq_true_eq] at hany
    exact hany ⟨kv0, hkv0, heq0⟩

set_option maxHeartbeats 2000000 in

theorem parsersWf : ∀ fuel : Nat,
    (∀ cs v rest, parseVal fuel cs = some (v, rest) → JsonWf v) ∧
    (∀ cs v rest, parseObjBody fuel cs = some (v, rest) → JsonWf v) ∧
    (∀ acc cs v rest, parseMembers fuel acc cs = some (v, rest) →
       (∀ kv ∈ acc, JsonWf kv.2) → ((acc.map Prod.fst).Nodup) → JsonWf v) ∧
    (∀ cs v rest, parseArrBody fuel cs = some (v, rest) → JsonWf v) ∧
    (∀ acc cs v rest, parseElems fuel acc cs = some (v, rest) →
       (∀ x ∈ acc, JsonWf x) → JsonWf v) := by
  intro fuel
  induction fuel with
  | zero =>
    refine ⟨fun cs v rest h => ?_, fun cs v rest h => ?_,
      fun acc cs v rest h => ?_, fun cs v rest h => ?_,
      fun acc cs v rest h => ?_⟩ <;> exact nomatch h
  | succ f ih =>
    obtain ⟨ihV, ihO, ihM, ihA, ihE⟩ := ih
    refine ⟨?_, ?_, ?_, ?_, ?_⟩
    · intro cs v rest h
      rcases hsk : skipWs cs with _ | ⟨c0, r0⟩
      · simp only [parseVal, hsk] at h
        exact nomatch h
      · simp only [parseVal, hsk] at h
        split_ifs at h
        · exact ihO _ _ _ h
        · exact ihA _ _ _ h
        · rcases hps : parseStrTop r0 with _ | ⟨s, r2⟩ <;> rw [hps] at h
          · exact nomatch h
          · cases h
            exact JsonWf.str s
        · cases h
          exact JsonWf.bool true
        · cases h
          exact JsonWf.bool false
        · cases h
          exact JsonWf.null
        · cases h
          exact JsonWf.num _ (Or.inr (Or.inl rfl))
        · cases h
          exact JsonWf.num _ (Or.inr (Or.inr (Or.inl rfl)))
        · cases h
          exact JsonWf.num _ (Or.inr (Or.inr (Or.inr rfl)))
        · rcases hpn : parseNum (c0 :: r0) with _ | ⟨lex, r2⟩ <;> rw [hpn] at h
          · exact nomatch h
          · cases h
            exact JsonWf.num _ (Or.inl (parseNum_shape _ _ _ hpn))
    · intro cs v rest h
      simp only [parseObjBody] at h
      split at h
      · cases h
        exact JsonWf.obj [] (by simp) (by simp)
      · exact ihM [] _ v rest h (by simp) (by simp)
    · intro acc cs v rest h hacc hnd
      simp only [parseMembers] at h
      split at h
      · rename_i x0 rK hsk2
        cases hps : parseStrTop rK with
        | none =>
          rw [hps] at h
          exact nomatch h
        | some pk =>
          obtain ⟨k, r2⟩ := pk
          simp only [hps] at h
          split at h
          · rename_i r3c hsk3
            cases hpv : parseVal f r3c with
            | none =>
              simp only [hpv] at h
              exact nomatch h
            | some pv =>
              obtain ⟨v4, r4⟩ := pv
              simp only [hpv] at h
              have hwf4 := ihV _ _ _ hpv
              have hacc2 := insertPy_wf acc k v4 hacc hwf4
              have hnd2 := insertPy_nodup acc k v4 hnd
              split at h
              · exact ihM _ _ v rest h hacc2 hnd2
              · cases h
                exact JsonWf.obj _ hacc2 hnd2
              · exact nomatch h
          · exact nomatch h
      · exact nomatch h
    · intro cs v rest h
      simp only [parseArrBody] at h
      split at h
      · cases h
        exact JsonWf.arr [] (by simp)
      · exact ihE [] _ v rest h (by simp)
    · intro acc cs v rest h hacc
      simp only [parseElems] at h
      cases hpv : parseVal f cs with
      | none =>
        simp only [hpv] at h
        exact nomatch h
      | some pv =>
        obtain ⟨v4, r4⟩ := pv
        simp only [hpv] at h
        have hwf4 := ihV _ _ _ hpv
        have hacc2 : ∀ x ∈ acc ++ [v4], JsonWf x := by
          intro x hx
          rcases List.mem_append.mp hx with h1 | h2
          · exact hacc x h1
          · have : x = v4 := by simpa using h2
            rw [this]
            exact hwf4
        split at h
        · exact ihE _ _ v rest h hacc2
        · cases h
          exact JsonWf.arr _ hacc2
        · exact nomatch h

/-- Everything `json.loads` returns is well-formed. -/
theorem jsonLoads_wf (cs : PyStr) (v : Json) (h : jsonLoads cs = some v) :
    JsonWf v := by
  unfold jsonLoads at h
  rcases hpv : parseVal (4 * cs.length + 8) cs with _ | ⟨v2, rest⟩
  · rw [hpv] at h
    exact Option.noConfusion h
  · simp only [hpv] at h
    split_ifs at h
    cases h
    exact (parsersWf _).1 _ _ _ hpv

theorem noNaNArr_mem (xs : List Json) (h : noNaNArr xs = true) :
    ∀ x ∈ xs, noNaNJ x = true := by
  induction xs with
  | nil => intro x hx; cases hx
  | cons y ys ih =>
    intro x hx
    simp only [noNaNArr, Bool.and_eq_true] at h
    rcases List.mem_cons.mp hx with rfl | hx2
    · exact h.1
    · exact ih h.2 x hx2

theorem noNaNMembers_mem (kvs : List (PyStr × Json)) (h : noNaNMembers kvs = true) :
    ∀ kv ∈ kvs, noNaNJ kv.2 = true := by
  induction kvs with
  | nil => intro kv hkv; cases hkv
  | cons kv2 rest ih =>
    obtain ⟨k2, v2⟩ := kv2
    intro kv hkv
    simp only [noNaNMembers, Bool.and_eq_true] at h
    rcases List.mem_cons.mp hkv with rfl | hkv2
    · exact h.1
    · exact ih h.2 kv hkv2

theorem pyEqArr_refl (xs : List Json) (h : ∀ x ∈ xs, pyEqJ x x = true) :
    pyEqArr xs xs = true := by
  induction xs with
  | nil => rfl
  | cons y ys ih =>
    simp only [pyEqArr, Bool.and_eq_true]
    exact ⟨h y (by simp), ih (fun x hx => h x (by simp [hx]))⟩

theorem pyEqMembers_refl (l kvs : List (PyStr × Json))
    (hsub : ∀ kv ∈ l, lookupKey kv.1 kvs = some kv.2 ∧ pyEqJ kv.2 kv.2 = true) :
    pyEqMembers l kvs = true := by
  induction l with
  | nil => rfl
  | cons kv2 rest ih =>
    obtain ⟨k2, v2⟩ := kv2
    simp only [pyEqMembers, Bool.and_eq_true]
    obtain ⟨hl, he⟩ := hsub (k2, v2) (by simp)
    constructor
    · rw [hl]
      exact he
    · exact ih (fun kv hkv => hsub kv (by simp [hkv]))

/-- Python `==` is reflexive on well-formed `NaN`-free values. -/
theorem pyEqJ_refl (v : Json) (hwf : JsonWf v) (hnn : noNaNJ v = true) :
    pyEqJ v v = true := by
  induction hwf with
  | null => rfl
  | bool b => simp [pyEqJ]
  | num lex hlex =>
    simp only [noNaNJ, decide_eq_true_eq] at hnn
    simp [pyEqJ, hnn]
  | str s => simp [pyEqJ]
  | arr xs h ih =>
    simp only [noNaNJ] at hnn
    simp only [pyEqJ]
    exact pyEqArr_refl xs (fun x hx => ih x hx (noNaNArr_mem xs hnn x hx))
  | obj kvs hv hk ihv =>
    simp only [noNaNJ] at hnn
    simp only [pyEqJ, Bool.and_eq_true]
    constructor
    · simp
    · refine pyEqMembers_refl kvs kvs (fun kv hkv => ⟨?_, ?_⟩)
      · exact lookupKey_self kv.1 kv.2 kvs hk (by simpa using hkv)
      · exact ihv kv hkv (noNaNMembers_mem kvs hnn kv hkv)

theorem sentinelDecision_wf (s : PyStr) (params : List (PyStr × Json))
    (hp : JsonWf (.obj params)) :
    JsonWf (toolValOf [(pys "tool", Json.str s), (pys "parameters", .obj params)]) ∧
    JsonWf (.obj (dispatchParams
      [(pys "tool", Json.str s), (pys "parameters", .obj params)])) := by
  constructor
  · have h : toolValOf [(pys "tool", Json.str s), (pys "parameters", .obj params)] =
        Json.str s := by
      simp [toolValOf, lookupKey]
    rw [h]
    exact JsonWf.str s
  · have h : dispatchParams [(pys "tool", Json.str s), (pys "parameters", .obj params)] =
        params := by
      simp only [dispatchParams, lookupKey]
      simp
      rw [if_neg (show ¬ pys "tool" = pys "parameters" from by decide)]
    rw [h]
    exact hp

theorem invalidStruct_wf (v : Json) (hwf : JsonWf v) :
    JsonWf (.obj [(pys "details", Json.str dInvalidStruct),
                  (pys "parsed_content", v)]) := by
  refine JsonWf.obj _ ?_ (by simp only [List.map_cons, List.map_nil]; decide)
  intro kv hkv
  rcases List.mem_cons.mp hkv with rfl | h2
  · exact JsonWf.str _
  · have h3 : kv = (pys "parsed_content", v) := by simpa using h2
    rw [h3]
    exact hwf

theorem detailsOnly_wf (x : PyStr) :
    JsonWf (.obj [(pys "details", Json.str x)]) := by
  refine JsonWf.obj _ ?_ (by simp only [List.map_cons, List.map_nil]; decide)
  intro kv hkv
  have h3 : kv = (pys "details", Json.str x) := by simpa using hkv
  rw [h3]
  exact JsonWf.str _

theorem parseFail_wf (d raw : PyStr) :
    JsonWf (.obj [(pys "details", Json.str d), (pys "raw_content", Json.str raw)]) := by
  refine JsonWf.obj _ ?_ (by simp only [List.map_cons, List.map_nil]; decide)
  intro kv hkv
  rcases List.mem_cons.mp hkv with rfl | h2
  · exact JsonWf.str _
  · have h3 : kv = (pys "raw_content", Json.str raw) := by simpa using h2
    rw [h3]
    exact JsonWf.str _

theorem validateDecision_wf (v : Json) (hwf : JsonWf v) :
    JsonWf (toolValOf (validateDecision v)) ∧
    JsonWf (.obj (dispatchParams (validateDecision v))) := by
  cases v with
  | obj kvs =>
    by_cases ht : (lookupKey (pys "tool") kvs).isSome
    · rw [show validateDecision (.obj kvs) = kvs from by simp [validateDecision, ht]]
      have hv : ∀ kv ∈ kvs, JsonWf kv.2 := by
        cases hwf with
        | obj _ hv hk => exact hv
      constructor
      · unfold toolValOf
        cases hlk : lookupKey (pys "tool") kvs with
        | none => exact JsonWf.null
        | some w =>
          simp only [Option.getD]
          exact hv (pys "tool", w) (lookupKey_mem _ _ _ hlk)
      · unfold dispatchParams
        cases hlp : lookupKey (pys "parameters") kvs with
        | none => exact JsonWf.obj [] (by simp) (by simp)
        | some w =>
          cases w with
          | obj kvs2 => exact hv (pys "parameters", .obj kvs2) (lookupKey_mem _ _ _ hlp)
          | null => exact JsonWf.obj [] (by simp) (by simp)
          | bool b => exact JsonWf.obj [] (by simp) (by simp)
          | num lex => exact JsonWf.obj [] (by simp) (by simp)
          | str s => exact JsonWf.obj [] (by simp) (by simp)
          | arr xs => exact JsonWf.obj [] (by simp) (by simp)
    · rw [show validateDecision (.obj kvs) =
        [(pys "tool", .str (pys "error_invalid_llm_response_structure")),
         (pys "parameters", .obj [(pys "details", .str dInvalidStruct),
                                  (pys "parsed_content", .obj kvs)])] from by
        simp [validateDecision, ht]]
      exact sentinelDecision_wf _ _ (invalidStruct_wf _ hwf)
  | null =>
    exact sentinelDecision_wf _ _ (invalidStruct_wf _ hwf)
  | bool b =>
    exact sentinelDecision_wf _ _ (invalidStruct_wf _ hwf)
  | num lex =>
    exact sentinelDecision_wf _ _ (invalidStruct_wf _ hwf)
  | str s =>
    exact sentinelDecision_wf _ _ (invalidStruct_wf _ hwf)
  | arr xs =>
    exact sentinelDecision_wf _ _ (invalidStruct_wf _ hwf)

/-- Both projections of every decision the interpreter produces are
well-formed. -/
theorem determineTool_wf (llm : Except PyExc PyStr) :
    JsonWf (toolValOf (determineTool llm)) ∧
    JsonWf (.obj (dispatchParams (determineTool llm))) := by
  cases llm with
  | error e =>
    rw [show determineTool (.error e) =
      [(pys "tool", .str (pys "error_in_tool_determination")),
       (pys "parameters", .obj [(pys "details", .str (excStr e))])] from rfl]
    exact sentinelDecision_wf _ _ (detailsOnly_wf _)
  | ok raw =>
    cases hl : jsonLoads (cleanLLM raw) with
    | some v =>
      rw [show determineTool (.ok raw) = validateDecision v from by
        simp [determineTool, hl]]
      exact validateDecision_wf v (jsonLoads_wf _ _ hl)
    | none =>
      cases hb : braceSpan raw with
      | some span =>
        cases hl2 : jsonLoads span with
        | some v =>
          rw [show determineTool (.ok raw) = validateDecision v from by
            simp [determineTool, hl, hb, hl2]]
          exact validateDecision_wf v (jsonLoads_wf _ _ hl2)
        | none =>
          rw [show determineTool (.ok raw) =
            [(pys "tool", .str (pys "error_parsing_llm_response")),
             (pys "parameters", .obj [(pys "details", .str dParseFail1),
                                      (pys "raw_content", .str raw)])] from by
            simp [determineTool, hl, hb, hl2]]
          exact sentinelDecision_wf _ _ (parseFail_wf _ _)
      | none =>
        rw [show determineTool (.ok raw) =
          [(pys "tool", .str (pys "error_parsing_llm_response")),
           (pys "parameters", .obj [(pys "details", .str dParseFail2),
                                    (pys "raw_content", .str raw)])] from by
          simp [determineTool, hl, hb]]
        exact sentinelDecision_wf _ _ (parseFail_wf _ _)

theorem cleanLLM_fixed (a : PyStr) :
    cleanLLM ('{' :: (a ++ ['}'])) = '{' :: (a ++ ['}']) := by
  have hstrip : pstrip ('{' :: (a ++ ['}'])) = '{' :: (a ++ ['}']) := by
    unfold pstrip
    rw [lstrip_cons_of_not '{' _ (by decide)]
    rw [show ('{' :: (a ++ ['}'])) = ('{' :: a) ++ ['}'] from by simp]
    rw [rstrip_append_not_ws _ '}' (by decide)]
  have hpre1 : (pys "```json").isPrefixOf ('{' :: (a ++ ['}'])) = false := by
    rw [show pys "```json" = '`' :: pys "``json" from rfl]
    simp [List.isPrefixOf]
  have hpre2 : (pys "```").isPrefixOf ('{' :: (a ++ ['}'])) = false := by
    rw [show pys "```" = '`' :: pys "``" from rfl]
    simp [List.isPrefixOf]
  have hsuf : (pys "```").isSuffixOf ('{' :: (a ++ ['}'])) = false := by
    rw [List.isSuffixOf]
    rw [show (pys "```").reverse = '`' :: pys "``" from rfl]
    rw [show ('{' :: (a ++ ['}'])).reverse = '}' :: (a.reverse ++ ['{']) from by simp]
    simp [List.isPrefixOf]
  simp [cleanLLM, hstrip, hpre1, hpre2, hsuf]

theorem dumpDecision_shape (d : List (PyStr × Json)) :
    ∃ a, dumpDecision d = '{' :: (a ++ ['}']) := by
  refine ⟨dumpStr (pys "tool") ++ pys ": " ++ dumpJ (toolValOf d) ++
    (',' :: ' ' :: (dumpStr (pys "parameters") ++ pys ": " ++
      dumpJ (.obj (dispatchParams d)))), ?_⟩
  simp [dumpDecision, dumpJ, dumpObjRest]

theorem decision_obj_wf (tv : Json) (ps : List (PyStr × Json))
    (hwt : JsonWf tv) (hwp : JsonWf (.obj ps)) :
    JsonWf (.obj [(pys "tool", tv), (pys "parameters", .obj ps)]) := by
  refine JsonWf.obj _ ?_ (by simp only [List.map_cons, List.map_nil]; decide)
  intro kv hkv
  rcases List.mem_cons.mp hkv with rfl | h2
  · exact hwt
  · have h3 : kv = (pys "parameters", Json.obj ps) := by simpa using h2
    rw [h3]
    exact hwp

/-- Core round-trip: a decision with well-formed `NaN`-free projections,
re-serialized and re-interpreted, yields a Python-equal decision. -/
theorem roundtrip_core (d : List (PyStr × Json))
    (hwt : JsonWf (toolValOf d)) (hwp : JsonWf (.obj (dispatchParams d)))
    (hnn : noNaNDecision d = true) :
    decisionEquiv d (determineTool (.ok (dumpDecision d))) = true := by
  have hWfV : JsonWf (.obj [(pys "tool", toolValOf d),
      (pys "parameters", .obj (dispatchParams d))]) :=
    decision_obj_wf _ _ hwt hwp
  obtain ⟨a, ha⟩ := dumpDecision_shape d
  have hclean : cleanLLM (dumpDecision d) = dumpDecision d := by
    rw [ha]
    exact cleanLLM_fixed a
  have hload : jsonLoads (cleanLLM (dumpDecision d)) =
      some (.obj [(pys "tool", toolValOf d),
        (pys "parameters", .obj (dispatchParams d))]) := by
    rw [hclean]
    exact jsonLoads_dump _ hWfV
  have hdet : determineTool (.ok (dumpDecision d)) =
      validateDecision (.obj [(pys "tool", toolValOf d),
        (pys "parameters", .obj (dispatchParams d))]) := by
    simp [determineTool, hload]
  have hval : validateDecision (.obj [(pys "tool", toolValOf d),
      (pys "parameters", .obj (dispatchParams d))]) =
      [(pys "tool", toolValOf d), (pys "parameters", .obj (dispatchParams d))] := by
    simp [validateDecision, lookupKey]
  have htv : toolValOf [(pys "tool", toolValOf d),
      (pys "parameters", .obj (dispatchParams d))] = toolValOf d := by
    simp [toolValOf, lookupKey]
  have hps : dispatchParams [(pys "tool", toolValOf d),
      (pys "parameters", .obj (dispatchParams d))] = dispatchParams d := by
    simp only [dispatchParams, lookupKey]
    simp
    rw [if_neg (show ¬ pys "tool" = pys "parameters" from by decide)]
  simp only [noNaNDecision, Bool.and_eq_true] at hnn
  rw [hdet, hval]
  simp only [decisionEquiv, htv, hps, Bool.and_eq_true]
  exact ⟨pyEqJ_refl _ hwt hnn.1, pyEqJ_refl _ hwp hnn.2⟩

/-- Counterexample to C9 as stated: the reply `{"tool": "t", "parameters":
{"p": NaN}}` produces a decision (CPython's `json.loads` accepts the `NaN`
constant), but re-serializing that decision's mapping and re-interpreting the
text yields a decision that compares unequal under Python `==`, because
`float("nan")` is unequal to itself. -/
theorem claim_C9_counterexample :
    decisionEquiv
      (determineTool (.ok (pys "\x7b\"tool\": \"t\", \"parameters\": \x7b\"p\": NaN\x7d\x7d")))
      (determineTool (.ok (dumpDecision
        (determineTool (.ok (pys "\x7b\"tool\": \"t\", \"parameters\": \x7b\"p\": NaN\x7d\x7d")))))) = false := by
  rfl

/-- C9 as amended: for every LLM outcome whose decision contains no `NaN`,
re-serializing the decision's `{tool, parameters}` mapping to JSON text and
interpreting that text again yields a ToolDecision equal to the original
under Python `==` (interpretation is stable under its own canonical output
format). -/
theorem claim_C9_roundtrip (llm : Except PyExc PyStr)
    (hnn : noNaNDecision (determineTool llm) = true) :
    decisionEquiv (determineTool llm)
      (determineTool (.ok (dumpDecision (determineTool llm)))) = true :=
  roundtrip_core (determineTool llm) (determineTool_wf llm).1
    (determineTool_wf llm).2 hnn

/-- Witness for the amended C9 at a concrete `NaN`-free reply: the calculator
decision round-trips to an equal decision. -/
theorem claim_C9_witness :
    noNaNDecision (determineTool
      (.ok (pys "\x7b\"tool\": \"calculator\", \"parameters\": \x7b\"expression\": \"2+2\"\x7d\x7d"))) = true ∧
    decisionEquiv
      (determineTool (.ok (pys "\x7b\"tool\": \"calculator\", \"parameters\": \x7b\"expression\": \"2+2\"\x7d\x7d")))
      (determineTool (.ok (dumpDecision (determineTool
        (.ok (pys "\x7b\"tool\": \"calculator\", \"parameters\": \x7b\"expression\": \"2+2\"\x7d\x7d")))))) = true :=
  ⟨rfl, claim_C9_roundtrip
    (.ok (pys "\x7b\"tool\": \"calculator\", \"parameters\": \x7b\"expression\": \"2+2\"\x7d\x7d")) rfl⟩
